import Mathlib

/-!
# BRStorm: the storm state machine, player motion and health of `scripts.js`

A shallow embedding of the `Game` class of `src/scripts.js`.  JavaScript numbers are
idealised as elements of a linearly ordered field `K` with a floor function (`ℚ` for
evaluation, `ℝ` where `Math.sqrt` has to be exact).  `Math.random()` is a stream
`rand : Nat → K` indexed by the number of earlier calls, `performance.now()` is an explicit
clock argument, and `Math.sqrt` is an explicit function argument.  Canvas drawing calls and
the text written to the timer label are not state of the game logic and are left out.
-/

namespace BRStorm

/-- The `type` tag of a zone: `'shrink'`, `'move'` or `'final'`. -/
inductive ZoneType where
  | shrink
  | move
  | final
  deriving DecidableEq, Repr

/-- One entry of `stormZones`: `{centerX, centerY, size, type}`. -/
structure Zone (K : Type) where
  centerX : K
  centerY : K
  size : K
  type : ZoneType

/-- The value of `storm.state`: `'waiting'` or `'shrinking'`. -/
inductive Phase where
  | waiting
  | shrinking
  deriving DecidableEq, Repr

/-- The `player` object (colour and health-bar dimensions are drawing data, left out). -/
structure Player (K : Type) where
  x : K
  y : K
  size : K
  speed : K
  maxHealth : K
  currentHealth : K

/-- The `storm` object (colour and the timer DOM element are left out).
`shrinkStartSize` is `null` (`none`) or a number. -/
structure Storm (K : Type) where
  currentSize : K
  targetSize : K
  shrinkDuration : K
  waitDuration : K
  damage : K
  lastDamageTime : K
  state : Phase
  stateStartTime : K
  shrinkStartSize : Option K
  currentZoneIndex : Nat
  centerX : K
  centerY : K
  targetCenterX : K
  targetCenterY : K
  closed : Bool

/-- The `keys` object: the four movement flags. -/
structure Keys where
  w : Bool
  a : Bool
  s : Bool
  d : Bool
  deriving DecidableEq, Repr

/-- The fields of `Game` that the update logic reads and writes. -/
structure Game (K : Type) where
  width : K
  height : K
  player : Player K
  stormZones : List (Zone K)
  storm : Storm K
  keys : Keys

section Generate

variable {K : Type} [LinearOrderedField K]

/-- The state threaded through the loops of `generateStormZones`: the `zones` array built
so far and the number of `Math.random()` calls already made. -/
structure GenState (K : Type) where
  zones : List (Zone K)
  calls : Nat

/-- One iteration `i` of the first loop of `generateStormZones` (`zones.push` of a shrink
zone).  `none` stands for the `TypeError` of reading `.size` of `undefined`. -/
def shrinkZoneStep (rand : Nat → K) (acc : Option (GenState K)) (i : Nat) :
    Option (GenState K) :=
  match acc with
  | none => none
  | some st =>
    match st.zones[i - 1]? with
    | none => none
    | some prevZone =>
      let newSize := max 100 (prevZone.size * 0.6)
      let maxOffset := (prevZone.size - newSize) / 2
      some
        { zones := st.zones ++
            [{ centerX := prevZone.centerX + (rand st.calls * maxOffset * 2 - maxOffset)
               centerY := prevZone.centerY + (rand (st.calls + 1) * maxOffset * 2 - maxOffset)
               size := newSize
               type := ZoneType.shrink }]
          calls := st.calls + 2 }

/-- One iteration of the second loop of `generateStormZones` (`zones.push` of a move
zone). -/
def moveZoneStep (rand : Nat → K) (width height finalSize playableMargin : K)
    (st : GenState K) (_i : Nat) : GenState K :=
  { zones := st.zones ++
      [{ centerX := playableMargin + rand st.calls * (width - playableMargin * 2)
         centerY := playableMargin + rand (st.calls + 1) * (height - playableMargin * 2)
         size := finalSize
         type := ZoneType.move }]
    calls := st.calls + 2 }

/-- The method `generateStormZones()`, for canvas `width` × `height` and random stream
`rand`.  `totalShrinkZones = 6`, `totalEndGameMoves = 4`. -/
def generateStormZones (width height : K) (rand : Nat → K) : Option (List (Zone K)) :=
  let totalShrinkZones := 6
  let totalEndGameMoves := 4
  let currentSize := max width height
  let zones0 : List (Zone K) :=
    [{ centerX := width / 2, centerY := height / 2, size := currentSize,
       type := ZoneType.shrink }]
  -- for (let i = 1; i < totalShrinkZones; i++)
  match (List.range' 1 (totalShrinkZones - 1)).foldl (shrinkZoneStep rand)
      (some { zones := zones0, calls := 0 }) with
  | none => none
  | some st1 =>
    match st1.zones[st1.zones.length - 1]? with
    | none => none
    | some lastShrink =>
      let finalSize := lastShrink.size
      let playableMargin := finalSize / 2
      -- for (let i = 0; i < totalEndGameMoves; i++)
      let st2 := (List.range totalEndGameMoves).foldl
        (moveZoneStep rand width height finalSize playableMargin) st1
      match st2.zones[st2.zones.length - 1]? with
      | none => none
      | some lastZone =>
        some (st2.zones ++
          [{ centerX := lastZone.centerX, centerY := lastZone.centerY, size := 0,
             type := ZoneType.final }])

end Generate

section Logic

variable {K : Type} [LinearOrderedField K] [FloorRing K]

/-- The method `healPlayer(amount)`. -/
def healPlayer (g : Game K) (amount : K) : Game K :=
  { g with player :=
      { g.player with
        currentHealth := min g.player.maxHealth (g.player.currentHealth + amount) } }

/-- The method `damagePlayer(amount)`. -/
def damagePlayer (g : Game K) (amount : K) : Game K :=
  { g with player :=
      { g.player with currentHealth := max 0 (g.player.currentHealth - amount) } }

/-- The first half of `updatePlayer()`: `dx`, `dy` from the key flags, normalised when both
are non-zero.  `sqrt` stands for `Math.sqrt`. -/
def updatePlayerDirection (sqrt : K → K) (keys : Keys) : K × K :=
  let dx : K := 0
  let dy : K := 0
  let dy := if keys.w then dy - 1 else dy
  let dy := if keys.s then dy + 1 else dy
  let dx := if keys.a then dx - 1 else dx
  let dx := if keys.d then dx + 1 else dx
  if dx ≠ 0 ∧ dy ≠ 0 then
    let length := sqrt (dx * dx + dy * dy)
    (dx / length, dy / length)
  else
    (dx, dy)

/-- The position of `updatePlayer()` after `x += dx * speed; y += dy * speed` and before the
boundary clamp. -/
def updatePlayerMoved (sqrt : K → K) (g : Game K) : K × K :=
  let d := updatePlayerDirection sqrt g.keys
  (g.player.x + d.1 * g.player.speed, g.player.y + d.2 * g.player.speed)

/-- The method `updatePlayer()`. -/
def updatePlayer (sqrt : K → K) (g : Game K) : Game K :=
  let moved := updatePlayerMoved sqrt g
  { g with player :=
      { g.player with
        x := max (g.player.size / 2) (min (g.width - g.player.size / 2) moved.1)
        y := max (g.player.size / 2) (min (g.height - g.player.size / 2) moved.2) } }

/-- The test `zone && zone.type === t` on a possibly `undefined` array element. -/
def zoneHasType (zone : Option (Zone K)) (t : ZoneType) : Bool :=
  match zone with
  | none => false
  | some z => decide (z.type = t)

/-- The constant `isEndGameMove` of `updateStorm()`. -/
def isEndGameMove (g : Game K) : Bool :=
  zoneHasType g.stormZones[g.storm.currentZoneIndex]? ZoneType.move

/-- The constant `isFinalPhase` of `updateStorm()`. -/
def isFinalPhase (g : Game K) : Bool :=
  zoneHasType g.stormZones[g.storm.currentZoneIndex]? ZoneType.final

/-- The constant `moveDuration` of `updateStorm()`. -/
def moveDuration (g : Game K) : K :=
  if isFinalPhase g then 10000 else if isEndGameMove g then 5000 else g.storm.shrinkDuration

/-- The constant `waitDuration` of `updateStorm()`. -/
def waitDuration (g : Game K) : K :=
  if isFinalPhase g then 5000 else if isEndGameMove g then 4000 else g.storm.waitDuration

/-- JavaScript truthiness of `shrinkStartSize`: `null` and `0` are falsy. -/
def truthy (v : Option K) : Bool :=
  match v with
  | none => false
  | some x => decide (x ≠ 0)

/-- `Math.round`: the nearest integer, halves rounded up. -/
def jsRound (x : K) : ℤ := ⌊x + 1 / 2⌋

/-- The eased progress of a shrinking frame: linear for the final zone, cubic ease-out
`1 - Math.pow(1 - progress, 3)` otherwise. -/
def easeProgress (g : Game K) (now : K) : K :=
  let progress := (now - g.storm.stateStartTime) / moveDuration g
  if isFinalPhase g then progress else 1 - (1 - progress) ^ 3

/-- The first block of `updateStorm()` (`// Update storm size based on state`): the storm
object after the phase update at clock value `now`. -/
def updateStormPhase (now : K) (g : Game K) : Storm K :=
  let stateTime := now - g.storm.stateStartTime
  match g.storm.state with
  | Phase.shrinking =>
    if stateTime ≥ moveDuration g then
      -- finished shrinking/moving: enter waiting state, move to next zone
      let storm := { g.storm with
        state := Phase.waiting
        stateStartTime := now
        currentZoneIndex := g.storm.currentZoneIndex + 1 }
      match g.stormZones[storm.currentZoneIndex + 1]?, g.stormZones[storm.currentZoneIndex]? with
      | some nextZone, some currentZone =>
        { storm with
          currentSize := currentZone.size
          targetSize := nextZone.size
          centerX := currentZone.centerX
          centerY := currentZone.centerY
          targetCenterX := nextZone.centerX
          targetCenterY := nextZone.centerY }
      | _, _ => storm
    else
      -- continue shrinking with easing
      let ease := easeProgress g now
      let startSize :=
        if truthy g.storm.shrinkStartSize then g.storm.shrinkStartSize.getD 0
        else g.storm.currentSize
      let sizeDiff := g.storm.targetSize - startSize
      let storm := { g.storm with
        shrinkStartSize := some startSize
        currentSize := startSize + sizeDiff * ease }
      match g.stormZones[g.storm.currentZoneIndex + 1]?,
          g.stormZones[g.storm.currentZoneIndex]? with
      | some nextZone, some currentZone =>
        { storm with
          centerX := currentZone.centerX + (nextZone.centerX - currentZone.centerX) * ease
          centerY := currentZone.centerY + (nextZone.centerY - currentZone.centerY) * ease }
      | _, _ => storm
  | Phase.waiting =>
    if stateTime ≥ waitDuration g then
      -- only start shrinking if there is a next zone
      if g.storm.currentZoneIndex < g.stormZones.length - 1 then
        { g.storm with
          state := Phase.shrinking
          stateStartTime := now
          shrinkStartSize := none }
      else g.storm
    else g.storm

/-- The second block of `updateStorm()` (`// Update timer display`), as far as it changes
state: `closed` is set when the frame ends in the shrinking phase of a final zone whose
next zone is not final and `shrinkProgress >= 100`.  `g` is the game at the start of
`updateStorm()` (its `stateTime`, `moveDuration`, `nextZone` and `isFinalPhase` are the
constants computed there), `storm` is the storm after the phase update. -/
def updateStormTimer (now : K) (g : Game K) (storm : Storm K) : Storm K :=
  let stateTime := now - g.storm.stateStartTime
  let nextZone := g.stormZones[g.storm.currentZoneIndex + 1]?
  if storm.closed then storm
  else if storm.state = Phase.waiting then storm
  else
    let shrinkProgress : ℤ := min 100 (jsRound (stateTime / moveDuration g * 100))
    if zoneHasType nextZone ZoneType.final then storm
    else if isFinalPhase g ∧ shrinkProgress ≥ 100 then { storm with closed := true }
    else storm

/-- The test of the third block of `updateStorm()`: the player's position is outside the
storm square. -/
def outsideStorm (player : Player K) (storm : Storm K) : Bool :=
  let stormLeft := storm.centerX - storm.currentSize / 2
  let stormTop := storm.centerY - storm.currentSize / 2
  decide (player.x < stormLeft ∨ player.x > stormLeft + storm.currentSize ∨
    player.y < stormTop ∨ player.y > stormTop + storm.currentSize)

/-- Whether `updateStorm()` at clock value `now` reaches
`this.damagePlayer(this.storm.damage); this.storm.lastDamageTime = now`. -/
def stormDamageApplies (now : K) (g : Game K) : Bool :=
  let storm := updateStormTimer now g (updateStormPhase now g)
  outsideStorm g.player storm && decide (now - storm.lastDamageTime ≥ 1000)

/-- The method `updateStorm()` with `performance.now()` returning `now`. -/
def updateStorm (now : K) (g : Game K) : Game K :=
  let storm := updateStormTimer now g (updateStormPhase now g)
  let g1 := { g with storm := storm }
  if stormDamageApplies now g then
    let g2 := damagePlayer g1 g1.storm.damage
    { g2 with storm := { g2.storm with lastDamageTime := now } }
  else g1

/-- The method `drawStorm()`, as far as it changes state. -/
def drawStorm (g : Game K) : Game K :=
  let safeWidth := max 0 g.storm.currentSize
  let safeHeight := max 0 g.storm.currentSize
  let safeArea := safeWidth * safeHeight
  if safeArea ≤ 0 ∧ g.storm.closed = false then
    { g with storm := { g.storm with closed := true } }
  else g

/-- The method `gameLoop()`: one frame, without the drawing calls and the performance
read-out. -/
def gameLoop (sqrt : K → K) (now : K) (g : Game K) : Game K :=
  drawStorm (updateStorm now (updatePlayer sqrt g))

/-- The lower-cased `e.key` of a keyboard event, as far as the listeners tell keys apart. -/
inductive KeyName where
  | w
  | a
  | s
  | d
  | n
  | m
  | b
  | other
  deriving DecidableEq, Repr

/-- A keyboard event delivered between two frames. -/
inductive KeyEvent where
  | keydown (key : KeyName)
  | keyup (key : KeyName)
  deriving DecidableEq, Repr

/-- The assignment `this.keys[key] = value` guarded by `this.keys.hasOwnProperty(key)`. -/
def setKey (keys : Keys) (key : KeyName) (value : Bool) : Keys :=
  match key with
  | KeyName.w => { keys with w := value }
  | KeyName.a => { keys with a := value }
  | KeyName.s => { keys with s := value }
  | KeyName.d => { keys with d := value }
  | _ => keys

/-- The two listeners installed by `setupEventListeners()`. -/
def handleKeyEvent (g : Game K) (e : KeyEvent) : Game K :=
  match e with
  | KeyEvent.keydown key =>
    let g1 := { g with keys := setKey g.keys key true }
    let g2 :=
      if key = KeyName.n then healPlayer g1 1
      else if key = KeyName.m then damagePlayer g1 1
      else g1
    -- dev testing: skip 3 seconds on the b key
    if key = KeyName.b then
      { g2 with storm := { g2.storm with stateStartTime := g2.storm.stateStartTime - 3000 } }
    else g2
  | KeyEvent.keyup key => { g with keys := setKey g.keys key false }

/-- The state set up by the constructor, with `performance.now()` returning `t0`. -/
def newGame (rand : Nat → K) (t0 : K) : Option (Game K) :=
  let width : K := 1024
  let height : K := 768
  match generateStormZones width height rand with
  | none => none
  | some stormZones =>
    match stormZones[0]?, stormZones[1]? with
    | some zone0, some zone1 =>
      some
        { width := width
          height := height
          player :=
            { x := width / 2, y := height / 2, size := 50, speed := 3,
              maxHealth := 22, currentHealth := 22 }
          stormZones := stormZones
          storm :=
            { currentSize := zone0.size
              targetSize := zone1.size
              shrinkDuration := 3000
              waitDuration := 2000
              damage := 1
              lastDamageTime := 0
              state := Phase.waiting
              stateStartTime := t0
              shrinkStartSize := none
              currentZoneIndex := 0
              centerX := zone0.centerX
              centerY := zone0.centerY
              targetCenterX := zone1.centerX
              targetCenterY := zone1.centerY
              closed := false }
          keys := { w := false, a := false, s := false, d := false } }
    | _, _ => none

/-- What happens between two `requestAnimationFrame` callbacks and in the next one: the
keyboard events delivered since the last frame, then `gameLoop()` at clock value `now`. -/
structure Frame (K : Type) where
  events : List KeyEvent
  now : K

/-- The game at the start of `updateStorm()` in frame `f`: events handled, player moved. -/
def beforeStorm (sqrt : K → K) (g : Game K) (f : Frame K) : Game K :=
  updatePlayer sqrt (f.events.foldl handleKeyEvent g)

/-- One frame: the events, then `gameLoop()`. -/
def runFrame (sqrt : K → K) (g : Game K) (f : Frame K) : Game K :=
  gameLoop sqrt f.now (f.events.foldl handleKeyEvent g)

/-- A run of frames. -/
def runFrames (sqrt : K → K) (g : Game K) (frames : List (Frame K)) : Game K :=
  frames.foldl (runFrame sqrt) g

/-- The clock values of the frames of a run in which `updateStorm()` damages the player,
in order. -/
def damageClocks (sqrt : K → K) : Game K → List (Frame K) → List K
  | _, [] => []
  | g, f :: frames =>
    (if stormDamageApplies f.now (beforeStorm sqrt g f) then [f.now] else []) ++
      damageClocks sqrt (runFrame sqrt g f) frames

/-- What the storm state machine uses of a schedule: eleven zones, the first ten of positive
size and not of type `'final'`, and sizes that never grow along the schedule. -/
structure Schedule (zs : List (Zone K)) : Prop where
  length_eq : zs.length = 11
  size_pos : ∀ (i : Nat) (z : Zone K), i < 10 → zs[i]? = some z → 0 < z.size
  size_nonneg : ∀ (i : Nat) (z : Zone K), zs[i]? = some z → 0 ≤ z.size
  not_final : ∀ (i : Nat) (z : Zone K), i < 10 → zs[i]? = some z → z.type ≠ ZoneType.final
  size_le : ∀ (i : Nat) (z z' : Zone K), zs[i]? = some z → zs[i + 1]? = some z' →
    z'.size ≤ z.size

/-- The invariant of the storm object `s` over the schedule `zs` that every frame of a game
started by the constructor keeps. -/
structure StormInv (zs : List (Zone K)) (s : Storm K) : Prop where
  sched : Schedule zs
  shrinkDuration_eq : s.shrinkDuration = 3000
  waitDuration_eq : s.waitDuration = 2000
  index_le : s.currentZoneIndex ≤ 10
  shrinking_lt : s.state = Phase.shrinking → s.currentZoneIndex < 10
  target_eq : ∀ z : Zone K, zs[s.currentZoneIndex + 1]? = some z → s.targetSize = z.size
  waiting_size : s.state = Phase.waiting → s.currentZoneIndex < 10 →
    ∀ z : Zone K, zs[s.currentZoneIndex]? = some z → s.currentSize = z.size
  shrinking_start : s.state = Phase.shrinking →
    ∀ z : Zone K, zs[s.currentZoneIndex]? = some z →
    (s.shrinkStartSize = none ∧ s.currentSize = z.size) ∨ s.shrinkStartSize = some z.size
  size_pos : 0 < s.currentSize
  not_closed : s.closed = false

/-- Spec side of the damage rule: the point `(x, y)` lies strictly outside the square
`[cx - size/2, cx + size/2] × [cy - size/2, cy + size/2]`. -/
def strictlyOutsideSquare (x y cx cy size : K) : Prop :=
  x < cx - size / 2 ∨ x > cx + size / 2 ∨ y < cy - size / 2 ∨ y > cy + size / 2

/-- Spec side of the player motion: the net direction `(d - a, s - w)` of the held keys. -/
def netDirection (keys : Keys) : K × K :=
  ((if keys.d then 1 else 0) - (if keys.a then 1 else 0),
    (if keys.s then 1 else 0) - (if keys.w then 1 else 0))

/-- The schedule that `generateStormZones()` returns on the 1024 × 768 canvas when every
`Math.random()` call returns 0.5: all eleven zones are centred on the canvas. -/
def centredZones (K : Type) [LinearOrderedField K] : List (Zone K) :=
  [{ centerX := 512, centerY := 384, size := 1024, type := ZoneType.shrink },
   { centerX := 512, centerY := 384, size := 3072 / 5, type := ZoneType.shrink },
   { centerX := 512, centerY := 384, size := 9216 / 25, type := ZoneType.shrink },
   { centerX := 512, centerY := 384, size := 27648 / 125, type := ZoneType.shrink },
   { centerX := 512, centerY := 384, size := 82944 / 625, type := ZoneType.shrink },
   { centerX := 512, centerY := 384, size := 100, type := ZoneType.shrink },
   { centerX := 512, centerY := 384, size := 100, type := ZoneType.move },
   { centerX := 512, centerY := 384, size := 100, type := ZoneType.move },
   { centerX := 512, centerY := 384, size := 100, type := ZoneType.move },
   { centerX := 512, centerY := 384, size := 100, type := ZoneType.move },
   { centerX := 512, centerY := 384, size := 0, type := ZoneType.final }]

/-- The state the constructor sets up at clock value `t0` when every `Math.random()` call
returns 0.5 (see `newGame_half`). -/
def centredGame (K : Type) [LinearOrderedField K] (t0 : K) : Game K :=
  { width := 1024
    height := 768
    player :=
      { x := 512, y := 384, size := 50, speed := 3, maxHealth := 22, currentHealth := 22 }
    stormZones := centredZones K
    storm :=
      { currentSize := 1024
        targetSize := 3072 / 5
        shrinkDuration := 3000
        waitDuration := 2000
        damage := 1
        lastDamageTime := 0
        state := Phase.waiting
        stateStartTime := t0
        shrinkStartSize := none
        currentZoneIndex := 0
        centerX := 512
        centerY := 384
        targetCenterX := 512
        targetCenterY := 384
        closed := false }
    keys := { w := false, a := false, s := false, d := false } }

/-- A state with the player in the top-left corner of the canvas and the storm waiting at
the first move zone of `centredZones`, entered at clock value 50000. -/
def cornerGame : Game ℚ :=
  { centredGame ℚ 0 with
    player :=
      { x := 25, y := 25, size := 50, speed := 3, maxHealth := 22, currentHealth := 22 }
    storm :=
      { (centredGame ℚ 0).storm with
        currentSize := 100
        targetSize := 100
        currentZoneIndex := 6
        stateStartTime := 50000 } }

/-- A state with the player outside the canvas, at `(2000, -5)`, and the keys `w` and `a`
held; otherwise the constructor's `centredGame`. -/
def strayGame : Game ℚ :=
  { centredGame ℚ 0 with
    player :=
      { x := 2000, y := -5, size := 50, speed := 3, maxHealth := 22, currentHealth := 22 }
    keys := { w := true, a := true, s := false, d := false } }

/-- A run without key events whose `n` frames have the clock values
`5000, 10000, ..., 5000 * n`. -/
def steadyFrames (n : Nat) : List (Frame ℚ) :=
  (List.range n).map fun i => { events := [], now := 5000 * ((i : ℚ) + 1) }

end Logic

/-! ## The storm schedule -/

section ScheduleTheorems

variable {K : Type} [LinearOrderedField K]

/-- C4: for every random stream, `generateStormZones` returns exactly 11 zones: zone 0 is
centred at `(width/2, height/2)` with size `max(width, height)` and type `'shrink'`; zones
1..5 have type `'shrink'` and size `max(100, 0.6 * previous size)`; zones 6..9 have type
`'move'`; the last zone has size 0, type `'final'` and the centre of zone 9. -/
theorem generateStormZones_shape (width height : K) (rand : Nat → K) :
    ∃ zs : List (Zone K), generateStormZones width height rand = some zs ∧
      zs.length = 11 ∧
      (∃ z0, zs[0]? = some z0 ∧ z0.centerX = width / 2 ∧ z0.centerY = height / 2 ∧
        z0.size = max width height ∧ z0.type = ZoneType.shrink) ∧
      (∀ i, 1 ≤ i → i ≤ 5 → ∃ prev z, zs[i - 1]? = some prev ∧ zs[i]? = some z ∧
        z.type = ZoneType.shrink ∧ z.size = max 100 ((0.6 : K) * prev.size)) ∧
      (∀ i, 6 ≤ i → i ≤ 9 → ∃ z, zs[i]? = some z ∧ z.type = ZoneType.move) ∧
      (∃ z9 z10, zs[9]? = some z9 ∧ zs[10]? = some z10 ∧ z10.size = 0 ∧
        z10.type = ZoneType.final ∧ z10.centerX = z9.centerX ∧
        z10.centerY = z9.centerY) := by
  simp only [generateStormZones, List.range', List.range, List.range.loop, List.foldl,
    shrinkZoneStep, moveZoneStep, List.getElem?_cons_zero, List.singleton_append,
    List.cons_append, List.nil_append, List.getElem?_cons_succ, Nat.reduceSub,
    List.length_cons, List.length_nil, List.length_singleton, Nat.reduceAdd]
  refine ⟨_, rfl, ?_⟩
  refine ⟨rfl, ⟨_, rfl, rfl, rfl, rfl, rfl⟩, ?_, ?_, ⟨_, _, rfl, rfl, rfl, rfl, rfl, rfl⟩⟩
  · intro i h1 h5
    interval_cases i <;> exact ⟨_, _, rfl, rfl, rfl, congrArg (max 100) (mul_comm _ _)⟩
  · intro i h6 h9
    interval_cases i <;> exact ⟨_, rfl, rfl⟩

end ScheduleTheorems

section CanvasSchedule

variable {K : Type} [LinearOrderedField K]

/-- The sizes along the schedule of the 1024 × 768 canvas are
`1024, 614.4, 368.64, 221.184, 132.7104, 100, 100, 100, 100, 100, 0`. -/
theorem schedule_sizes :
    max (1024 : K) 768 = 1024 ∧ max (100 : K) (1024 * 0.6) = 3072 / 5 ∧
      max (100 : K) (3072 / 5 * 0.6) = 9216 / 25 ∧
      max (100 : K) (9216 / 25 * 0.6) = 27648 / 125 ∧
      max (100 : K) (27648 / 125 * 0.6) = 82944 / 625 ∧
      max (100 : K) (82944 / 625 * 0.6) = 100 := by
  refine ⟨by norm_num, ?_, ?_, ?_, ?_, ?_⟩
  · rw [max_eq_right] <;> norm_num
  · rw [max_eq_right] <;> norm_num
  · rw [max_eq_right] <;> norm_num
  · rw [max_eq_right] <;> norm_num
  · rw [max_eq_left]; norm_num

/-- The schedule generated for the 1024 × 768 canvas satisfies `Schedule`, and its first
zone is the canvas-centred square of size 1024. -/
theorem generateStormZones_schedule (rand : Nat → K) :
    ∃ (zs : List (Zone K)) (z0 z1 : Zone K),
      generateStormZones 1024 768 rand = some zs ∧ Schedule zs ∧
      zs[0]? = some z0 ∧ zs[1]? = some z1 ∧
      z0.size = 1024 ∧ z0.centerX = 512 ∧ z0.centerY = 384 := by
  obtain ⟨e0, e1, e2, e3, e4, e5⟩ := schedule_sizes (K := K)
  simp only [generateStormZones, List.range', List.range, List.range.loop, List.foldl,
    shrinkZoneStep, moveZoneStep, List.getElem?_cons_zero, List.singleton_append,
    List.cons_append, List.nil_append, List.getElem?_cons_succ, Nat.reduceSub,
    List.length_cons, List.length_nil, List.length_singleton, Nat.reduceAdd,
    e0, e1, e2, e3, e4, e5]
  refine ⟨_, _, _, rfl, ⟨rfl, ?_, ?_, ?_, ?_⟩, rfl, rfl, rfl, by norm_num, by norm_num⟩
  · intro i z hi hz
    interval_cases i <;> simp at hz <;> subst hz <;> norm_num
  · intro i z hz
    have hi : i < 11 := by
      by_contra h
      rw [List.getElem?_eq_none (by simpa using h)] at hz
      exact absurd hz (by simp)
    interval_cases i <;> simp at hz <;> subst hz <;> norm_num
  · intro i z hi hz
    interval_cases i <;> simp at hz <;> subst hz <;> simp
  · intro i z z' hz hz'
    have hi : i < 10 := by
      by_contra h
      have h11 : 11 ≤ i + 1 := by omega
      rw [List.getElem?_eq_none (by simpa using h11)] at hz'
      exact absurd hz' (by simp)
    interval_cases i <;> simp at hz hz' <;> subst hz <;> subst hz' <;> norm_num

/-- C9: for random draws in `[0, 1)`, each of the four move zones (zones 6..9) of the
schedule generated for the 1024 × 768 canvas has the size of the last shrink zone (zone 5),
and its square `[centerX - size/2, centerX + size/2] × [centerY - size/2, centerY + size/2]`
lies inside the canvas `[0, 1024] × [0, 768]`. -/
theorem moveZones_inside_canvas (rand : Nat → K) (hrand : ∀ n, 0 ≤ rand n ∧ rand n < 1) :
    ∃ (zs : List (Zone K)) (z5 : Zone K),
      generateStormZones 1024 768 rand = some zs ∧ zs[5]? = some z5 ∧
      ∀ i, 6 ≤ i → i ≤ 9 → ∃ z, zs[i]? = some z ∧ z.type = ZoneType.move ∧
        z.size = z5.size ∧
        0 ≤ z.centerX - z.size / 2 ∧ z.centerX + z.size / 2 ≤ 1024 ∧
        0 ≤ z.centerY - z.size / 2 ∧ z.centerY + z.size / 2 ≤ 768 := by
  obtain ⟨e0, e1, e2, e3, e4, e5⟩ := schedule_sizes (K := K)
  simp only [generateStormZones, List.range', List.range, List.range.loop, List.foldl,
    shrinkZoneStep, moveZoneStep, List.getElem?_cons_zero, List.singleton_append,
    List.cons_append, List.nil_append, List.getElem?_cons_succ, Nat.reduceSub,
    List.length_cons, List.length_nil, List.length_singleton, Nat.reduceAdd,
    e0, e1, e2, e3, e4, e5]
  refine ⟨_, _, rfl, rfl, ?_⟩
  intro i h6 h9
  have key : ∀ (r w : K), 0 ≤ r → r < 1 → 100 ≤ w →
      0 ≤ 100 / 2 + r * (w - 100 / 2 * 2) - 100 / 2 ∧
      100 / 2 + r * (w - 100 / 2 * 2) + 100 / 2 ≤ w := by
    intro r w h0 h1 hw
    have hm : 0 ≤ r * (w - 100) := mul_nonneg h0 (by linarith)
    have hm' : r * (w - 100) ≤ 1 * (w - 100) :=
      mul_le_mul_of_nonneg_right h1.le (by linarith)
    constructor <;> linarith
  interval_cases i
  · exact ⟨_, rfl, rfl, rfl, (key _ 1024 (hrand 10).1 (hrand 10).2 (by norm_num)).1,
      (key _ 1024 (hrand 10).1 (hrand 10).2 (by norm_num)).2,
      (key _ 768 (hrand 11).1 (hrand 11).2 (by norm_num)).1,
      (key _ 768 (hrand 11).1 (hrand 11).2 (by norm_num)).2⟩
  · exact ⟨_, rfl, rfl, rfl, (key _ 1024 (hrand 12).1 (hrand 12).2 (by norm_num)).1,
      (key _ 1024 (hrand 12).1 (hrand 12).2 (by norm_num)).2,
      (key _ 768 (hrand 13).1 (hrand 13).2 (by norm_num)).1,
      (key _ 768 (hrand 13).1 (hrand 13).2 (by norm_num)).2⟩
  · exact ⟨_, rfl, rfl, rfl, (key _ 1024 (hrand 14).1 (hrand 14).2 (by norm_num)).1,
      (key _ 1024 (hrand 14).1 (hrand 14).2 (by norm_num)).2,
      (key _ 768 (hrand 15).1 (hrand 15).2 (by norm_num)).1,
      (key _ 768 (hrand 15).1 (hrand 15).2 (by norm_num)).2⟩
  · exact ⟨_, rfl, rfl, rfl, (key _ 1024 (hrand 16).1 (hrand 16).2 (by norm_num)).1,
      (key _ 1024 (hrand 16).1 (hrand 16).2 (by norm_num)).2,
      (key _ 768 (hrand 17).1 (hrand 17).2 (by norm_num)).1,
      (key _ 768 (hrand 17).1 (hrand 17).2 (by norm_num)).2⟩

/-- Witness of `moveZones_inside_canvas`: the all-zero random stream over `ℚ`. -/
theorem moveZones_inside_canvas_witness :
    (∀ n : Nat, 0 ≤ (fun _ : Nat => (0 : ℚ)) n ∧ (fun _ : Nat => (0 : ℚ)) n < 1) ∧
    ∃ (zs : List (Zone ℚ)) (z5 : Zone ℚ),
      generateStormZones 1024 768 (fun _ : Nat => (0 : ℚ)) = some zs ∧ zs[5]? = some z5 ∧
      ∀ i, 6 ≤ i → i ≤ 9 → ∃ z, zs[i]? = some z ∧ z.type = ZoneType.move ∧
        z.size = z5.size ∧
        0 ≤ z.centerX - z.size / 2 ∧ z.centerX + z.size / 2 ≤ 1024 ∧
        0 ≤ z.centerY - z.size / 2 ∧ z.centerY + z.size / 2 ≤ 768 :=
  ⟨fun _ => ⟨le_refl _, zero_lt_one⟩,
    moveZones_inside_canvas (fun _ : Nat => (0 : ℚ)) (fun _ => ⟨le_refl _, zero_lt_one⟩)⟩

end CanvasSchedule

/-! ## The constructor -/

section Constructor

variable {K : Type} [LinearOrderedField K]

/-- With every random draw equal to 0.5 the constructor sets up `centredGame`. -/
theorem newGame_half (t0 : K) :
    newGame (fun _ => (1 / 2 : K)) t0 = some (centredGame K t0) := by
  obtain ⟨e0, e1, e2, e3, e4, e5⟩ := schedule_sizes (K := K)
  simp only [newGame, generateStormZones, List.range', List.range, List.range.loop,
    List.foldl, shrinkZoneStep, moveZoneStep, List.getElem?_cons_zero,
    List.singleton_append, List.cons_append, List.nil_append, List.getElem?_cons_succ,
    Nat.reduceSub, List.length_cons, List.length_nil, List.length_singleton, Nat.reduceAdd,
    e0, e1, e2, e3, e4, e5, centredGame, centredZones]
  norm_num

end Constructor

/-! ## Health and player motion -/

section PlayerTheorems

variable {K : Type} [LinearOrderedField K]

/-- C6 (as amended): for a player with `0 ≤ currentHealth ≤ maxHealth` and an amount
`≥ 0`, `healPlayer(amount)` and `damagePlayer(amount)` each leave `currentHealth` within
`[0, maxHealth]` (and do not touch `maxHealth`). -/
theorem health_stays_in_range (g : Game K) (amount : K)
    (h0 : 0 ≤ g.player.currentHealth) (h1 : g.player.currentHealth ≤ g.player.maxHealth)
    (ha : 0 ≤ amount) :
    (0 ≤ (healPlayer g amount).player.currentHealth ∧
      (healPlayer g amount).player.currentHealth ≤ (healPlayer g amount).player.maxHealth) ∧
    (0 ≤ (damagePlayer g amount).player.currentHealth ∧
      (damagePlayer g amount).player.currentHealth ≤
        (damagePlayer g amount).player.maxHealth) ∧
    ((healPlayer g amount).player.maxHealth = g.player.maxHealth ∧
      (damagePlayer g amount).player.maxHealth = g.player.maxHealth) := by
  refine ⟨?_, ?_, rfl, rfl⟩
  · simp only [healPlayer]
    exact ⟨le_min (h0.trans h1) (add_nonneg h0 ha), min_le_left _ _⟩
  · simp only [damagePlayer]
    refine ⟨le_max_left _ _, max_le (h0.trans h1) ?_⟩
    linarith

/-- Witness of `health_stays_in_range`: the constructor's player and amount 1. -/
theorem health_stays_in_range_witness :
    (0 ≤ (centredGame ℚ 0).player.currentHealth ∧
      (centredGame ℚ 0).player.currentHealth ≤ (centredGame ℚ 0).player.maxHealth ∧
      (0 : ℚ) ≤ 1) ∧
    (0 ≤ (healPlayer (centredGame ℚ 0) 1).player.currentHealth ∧
      (healPlayer (centredGame ℚ 0) 1).player.currentHealth ≤
        (healPlayer (centredGame ℚ 0) 1).player.maxHealth) ∧
    (0 ≤ (damagePlayer (centredGame ℚ 0) 1).player.currentHealth ∧
      (damagePlayer (centredGame ℚ 0) 1).player.currentHealth ≤
        (damagePlayer (centredGame ℚ 0) 1).player.maxHealth) ∧
    ((healPlayer (centredGame ℚ 0) 1).player.maxHealth =
        (centredGame ℚ 0).player.maxHealth ∧
      (damagePlayer (centredGame ℚ 0) 1).player.maxHealth =
        (centredGame ℚ 0).player.maxHealth) :=
  ⟨⟨by norm_num [centredGame], by norm_num [centredGame], by norm_num⟩,
    health_stays_in_range (centredGame ℚ 0) 1 (by norm_num [centredGame])
      (by norm_num [centredGame]) (by norm_num)⟩

/-- C6 as stated fails for negative amounts: at full health 22 of 22, `healPlayer(-23)`
leaves `currentHealth = -1 < 0` and `damagePlayer(-1)` leaves `currentHealth = 23 > 22`. -/
theorem health_negative_amount_escapes :
    0 ≤ (centredGame ℚ 0).player.currentHealth ∧
    (centredGame ℚ 0).player.currentHealth ≤ (centredGame ℚ 0).player.maxHealth ∧
    (healPlayer (centredGame ℚ 0) (-23)).player.currentHealth = -1 ∧
    ¬ (0 ≤ (healPlayer (centredGame ℚ 0) (-23)).player.currentHealth) ∧
    (damagePlayer (centredGame ℚ 0) (-1)).player.currentHealth = 23 ∧
    ¬ ((damagePlayer (centredGame ℚ 0) (-1)).player.currentHealth ≤
      (damagePlayer (centredGame ℚ 0) (-1)).player.maxHealth) := by
  norm_num [centredGame, healPlayer, damagePlayer]

/-- C5: with `size = 50`, `width = 1024`, `height = 768`, for every prior position (in
bounds or not) and every combination of key flags, the position after `updatePlayer`
satisfies `25 ≤ x ≤ 999` and `25 ≤ y ≤ 743`, that is `size/2 ≤ x ≤ width - size/2` and
`size/2 ≤ y ≤ height - size/2` for the size, width and height of the state before the
call, which `updatePlayer` leaves unchanged. -/
theorem updatePlayer_in_bounds (sqrt : K → K) (g : Game K)
    (hsize : g.player.size = 50) (hwidth : g.width = 1024) (hheight : g.height = 768) :
    (25 ≤ (updatePlayer sqrt g).player.x ∧ (updatePlayer sqrt g).player.x ≤ 999 ∧
      25 ≤ (updatePlayer sqrt g).player.y ∧ (updatePlayer sqrt g).player.y ≤ 743) ∧
    (g.player.size / 2 ≤ (updatePlayer sqrt g).player.x ∧
      (updatePlayer sqrt g).player.x ≤ g.width - g.player.size / 2 ∧
      g.player.size / 2 ≤ (updatePlayer sqrt g).player.y ∧
      (updatePlayer sqrt g).player.y ≤ g.height - g.player.size / 2) ∧
    (updatePlayer sqrt g).player.size = g.player.size ∧
    (updatePlayer sqrt g).width = g.width ∧ (updatePlayer sqrt g).height = g.height := by
  have hx : g.player.size / 2 ≤ (updatePlayer sqrt g).player.x ∧
      (updatePlayer sqrt g).player.x ≤ g.width - g.player.size / 2 := by
    simp only [updatePlayer, hsize, hwidth]
    exact ⟨le_max_left _ _, max_le (by norm_num) (min_le_left _ _)⟩
  have hy : g.player.size / 2 ≤ (updatePlayer sqrt g).player.y ∧
      (updatePlayer sqrt g).player.y ≤ g.height - g.player.size / 2 := by
    simp only [updatePlayer, hsize, hheight]
    exact ⟨le_max_left _ _, max_le (by norm_num) (min_le_left _ _)⟩
  refine ⟨?_, ⟨hx.1, hx.2, hy.1, hy.2⟩, rfl, rfl, rfl⟩
  rw [hsize, hwidth] at hx
  rw [hsize, hheight] at hy
  refine ⟨?_, ?_, ?_, ?_⟩
  · linarith [hx.1]
  · linarith [hx.2]
  · linarith [hy.1]
  · linarith [hy.2]

/-- Witness of `updatePlayer_in_bounds`: `strayGame`, whose player starts outside the canvas
at `(2000, -5)` with `w` and `a` held; the clamp puts it at `(999, 25)`. -/
theorem updatePlayer_in_bounds_witness :
    (strayGame.player.size = 50 ∧ strayGame.width = 1024 ∧ strayGame.height = 768) ∧
    ((25 ≤ (updatePlayer id strayGame).player.x ∧ (updatePlayer id strayGame).player.x ≤ 999 ∧
        25 ≤ (updatePlayer id strayGame).player.y ∧
        (updatePlayer id strayGame).player.y ≤ 743) ∧
      (strayGame.player.size / 2 ≤ (updatePlayer id strayGame).player.x ∧
        (updatePlayer id strayGame).player.x ≤ strayGame.width - strayGame.player.size / 2 ∧
        strayGame.player.size / 2 ≤ (updatePlayer id strayGame).player.y ∧
        (updatePlayer id strayGame).player.y ≤
          strayGame.height - strayGame.player.size / 2) ∧
      (updatePlayer id strayGame).player.size = strayGame.player.size ∧
      (updatePlayer id strayGame).width = strayGame.width ∧
      (updatePlayer id strayGame).height = strayGame.height) ∧
    (updatePlayer id strayGame).player.x = 999 ∧ (updatePlayer id strayGame).player.y = 25 :=
  ⟨⟨rfl, rfl, rfl⟩, updatePlayer_in_bounds id strayGame rfl rfl rfl, by
    norm_num [updatePlayer, updatePlayerMoved, updatePlayerDirection, strayGame,
      centredGame]⟩

end PlayerTheorems

section MotionTheorems

variable {K : Type} [LinearOrderedField K]

/-- An exact square root of 2 is positive. -/
theorem sqrt_two_pos (sqrt : K → K)
    (hsqrt : ∀ x : K, 0 ≤ x → 0 ≤ sqrt x ∧ sqrt x * sqrt x = x) :
    0 < sqrt 2 ∧ sqrt 2 * sqrt 2 = 2 := by
  obtain ⟨h0, h2⟩ := hsqrt 2 (by norm_num)
  refine ⟨lt_of_le_of_ne h0 ?_, h2⟩
  intro h
  rw [← h] at h2
  norm_num at h2

/-- The direction computed by `updatePlayer` is the net direction of the held keys scaled
to Euclidean length 1 (or zero), when `Math.sqrt` is exact. -/
theorem updatePlayerDirection_unit (sqrt : K → K)
    (hsqrt : ∀ x : K, 0 ≤ x → 0 ≤ sqrt x ∧ sqrt x * sqrt x = x) (keys : Keys) :
    ((netDirection keys : K × K) = (0, 0) → updatePlayerDirection sqrt keys = (0, 0)) ∧
    ((netDirection keys : K × K) ≠ (0, 0) →
      (updatePlayerDirection sqrt keys).1 * (updatePlayerDirection sqrt keys).1 +
        (updatePlayerDirection sqrt keys).2 * (updatePlayerDirection sqrt keys).2 = 1 ∧
      ∃ c : K, 0 < c ∧ updatePlayerDirection sqrt keys =
        (c * (netDirection keys : K × K).1, c * (netDirection keys : K × K).2)) := by
  obtain ⟨hpos, hsq⟩ := sqrt_two_pos sqrt hsqrt
  have hne : sqrt 2 ≠ 0 := ne_of_gt hpos
  have hunit : (1 / sqrt 2) * (1 / sqrt 2) + (1 / sqrt 2) * (1 / sqrt 2) = 1 := by
    field_simp
    linarith
  have h2 : (1 : K) + 1 = 2 := by norm_num
  obtain ⟨w, a, s, d⟩ := keys
  cases w <;> cases a <;> cases s <;> cases d <;>
    simp [netDirection, updatePlayerDirection, h2]
  all_goals
    first
    | exact ⟨by field_simp; linarith, hpos⟩
    | exact ⟨by field_simp; linarith, hpos, by ring⟩
    | exact ⟨by field_simp; linarith, (sqrt 2)⁻¹, inv_pos.mpr hpos, rfl, by ring⟩
    | exact ⟨by field_simp; linarith, (sqrt 2)⁻¹, inv_pos.mpr hpos, by ring⟩

/-- C10: with an exact `Math.sqrt` (arithmetic over the reals), for every combination of
the four key flags `updatePlayer` displaces the player, before the boundary clamp, by
`speed * u`, where `u` is `(0, 0)` when the net direction `(d - a, s - w)` is zero and
otherwise the net direction scaled by a positive factor to Euclidean length 1; the new
position is the clamp of the displaced one.  With both `a` and `d` held the horizontal
component of `u` is 0, and with no key held an in-bounds position is unchanged. -/
theorem updatePlayer_displacement (sqrt : K → K)
    (hsqrt : ∀ x : K, 0 ≤ x → 0 ≤ sqrt x ∧ sqrt x * sqrt x = x) (g : Game K) :
    ∃ u : K × K,
      ((netDirection g.keys : K × K) = (0, 0) → u = (0, 0)) ∧
      ((netDirection g.keys : K × K) ≠ (0, 0) →
        u.1 * u.1 + u.2 * u.2 = 1 ∧
        ∃ c : K, 0 < c ∧
          u = (c * (netDirection g.keys : K × K).1, c * (netDirection g.keys : K × K).2)) ∧
      updatePlayerMoved sqrt g =
        (g.player.x + g.player.speed * u.1, g.player.y + g.player.speed * u.2) ∧
      (updatePlayer sqrt g).player.x =
        max (g.player.size / 2)
          (min (g.width - g.player.size / 2) (g.player.x + g.player.speed * u.1)) ∧
      (updatePlayer sqrt g).player.y =
        max (g.player.size / 2)
          (min (g.height - g.player.size / 2) (g.player.y + g.player.speed * u.2)) ∧
      (g.keys.a = true → g.keys.d = true → u.1 = 0) ∧
      (g.keys.w = false → g.keys.a = false → g.keys.s = false → g.keys.d = false →
        g.player.size / 2 ≤ g.player.x → g.player.x ≤ g.width - g.player.size / 2 →
        g.player.size / 2 ≤ g.player.y → g.player.y ≤ g.height - g.player.size / 2 →
        (updatePlayer sqrt g).player.x = g.player.x ∧
          (updatePlayer sqrt g).player.y = g.player.y) := by
  obtain ⟨hzero, hunit⟩ := updatePlayerDirection_unit sqrt hsqrt g.keys
  refine ⟨updatePlayerDirection sqrt g.keys, hzero, hunit, ?_, ?_, ?_, ?_, ?_⟩
  · simp only [updatePlayerMoved, mul_comm]
  · simp only [updatePlayer, updatePlayerMoved, mul_comm]
  · simp only [updatePlayer, updatePlayerMoved, mul_comm]
  · intro ha hd
    cases hw : g.keys.w <;> cases hs : g.keys.s <;>
      simp [updatePlayerDirection, ha, hd, hw, hs]
  · intro hw ha hs hd hx0 hx1 hy0 hy1
    simp only [updatePlayer, updatePlayerMoved, updatePlayerDirection, hw, ha, hs, hd]
    simp only [Bool.false_eq_true, if_false, ne_eq, not_true_eq_false, false_and,
      zero_mul, add_zero]
    exact ⟨by rw [min_eq_right hx1, max_eq_right hx0],
      by rw [min_eq_right hy1, max_eq_right hy0]⟩

/-- Witness of `updatePlayer_displacement`: the real numbers with `Real.sqrt`, the
constructor's state with `w` and `d` held. -/
theorem updatePlayer_displacement_witness :
    (∀ x : ℝ, 0 ≤ x → 0 ≤ Real.sqrt x ∧ Real.sqrt x * Real.sqrt x = x) ∧
    ∃ u : ℝ × ℝ,
      ((netDirection ({ centredGame ℝ 0 with keys := ⟨true, false, false, true⟩ }).keys :
          ℝ × ℝ) = (0, 0) → u = (0, 0)) ∧
      ((netDirection ({ centredGame ℝ 0 with keys := ⟨true, false, false, true⟩ }).keys :
          ℝ × ℝ) ≠ (0, 0) →
        u.1 * u.1 + u.2 * u.2 = 1 ∧
        ∃ c : ℝ, 0 < c ∧ u = (c * (1 : ℝ), c * (-1 : ℝ))) ∧
      updatePlayerMoved Real.sqrt
          { centredGame ℝ 0 with keys := ⟨true, false, false, true⟩ } =
        (512 + 3 * u.1, 384 + 3 * u.2) :=
  ⟨fun x hx => ⟨Real.sqrt_nonneg x, Real.mul_self_sqrt hx⟩, by
    obtain ⟨u, h1, h2, h3, _⟩ := updatePlayer_displacement Real.sqrt
      (fun x hx => ⟨Real.sqrt_nonneg x, Real.mul_self_sqrt hx⟩)
      { centredGame ℝ 0 with keys := ⟨true, false, false, true⟩ }
    refine ⟨u, h1, ?_, ?_⟩
    · intro hne
      obtain ⟨hu, c, hc, hcu⟩ := h2 hne
      refine ⟨hu, c, hc, ?_⟩
      rw [hcu]
      simp [netDirection]
    · rw [h3]
      simp [centredGame]⟩

end MotionTheorems

/-! ## The storm: which fields each step touches -/

section StormPhase

variable {K : Type} [LinearOrderedField K]

/-- The phase block of `updateStorm` does not touch `lastDamageTime`, `damage` and the two
configured durations. -/
theorem updateStormPhase_config (now : K) (g : Game K) :
    (updateStormPhase now g).lastDamageTime = g.storm.lastDamageTime ∧
      (updateStormPhase now g).damage = g.storm.damage ∧
      (updateStormPhase now g).shrinkDuration = g.storm.shrinkDuration ∧
      (updateStormPhase now g).waitDuration = g.storm.waitDuration ∧
      (updateStormPhase now g).closed = g.storm.closed := by
  unfold updateStormPhase
  cases g.storm.state <;> simp only <;> split_ifs <;> (try split) <;>
    exact ⟨rfl, rfl, rfl, rfl, rfl⟩

/-- In the waiting phase the phase block leaves the storm square where it is. -/
theorem updateStormPhase_waiting (now : K) (g : Game K) (hw : g.storm.state = Phase.waiting) :
    (updateStormPhase now g).currentSize = g.storm.currentSize ∧
      (updateStormPhase now g).centerX = g.storm.centerX ∧
      (updateStormPhase now g).centerY = g.storm.centerY ∧
      (updateStormPhase now g).currentZoneIndex = g.storm.currentZoneIndex := by
  unfold updateStormPhase
  rw [hw]
  simp only
  split_ifs <;> exact ⟨rfl, rfl, rfl, rfl⟩

end StormPhase

section StormFrame

variable {K : Type} [LinearOrderedField K] [FloorRing K]

/-- The timer block of `updateStorm` changes at most `closed`. -/
theorem updateStormTimer_eq (now : K) (g : Game K) (s : Storm K) :
    ∃ c : Bool, updateStormTimer now g s = { s with closed := c } := by
  unfold updateStormTimer
  dsimp only
  split_ifs
  · exact ⟨s.closed, rfl⟩
  · exact ⟨s.closed, rfl⟩
  · exact ⟨s.closed, rfl⟩
  · exact ⟨true, rfl⟩
  · exact ⟨s.closed, rfl⟩

/-- The storm after `updateStorm`: the phase block, a possible change of `closed`, and
`lastDamageTime` set to the clock when damage applies. -/
theorem updateStorm_storm (now : K) (g : Game K) :
    ∃ c : Bool, (updateStorm now g).storm =
      { updateStormPhase now g with
        closed := c
        lastDamageTime :=
          if stormDamageApplies now g then now else g.storm.lastDamageTime } := by
  obtain ⟨c, hc⟩ := updateStormTimer_eq now g (updateStormPhase now g)
  refine ⟨c, ?_⟩
  unfold updateStorm
  dsimp only
  rw [hc]
  split_ifs
  · rfl
  · simp only [(updateStormPhase_config now g).1.symm]

/-- The rest of the game after `updateStorm`: only the player's health can change. -/
theorem updateStorm_rest (now : K) (g : Game K) :
    (updateStorm now g).stormZones = g.stormZones ∧ (updateStorm now g).keys = g.keys ∧
      (updateStorm now g).width = g.width ∧ (updateStorm now g).height = g.height ∧
      (updateStorm now g).player =
        { g.player with
          currentHealth :=
            if stormDamageApplies now g then max 0 (g.player.currentHealth - g.storm.damage)
            else g.player.currentHealth } := by
  obtain ⟨c, hc⟩ := updateStormTimer_eq now g (updateStormPhase now g)
  unfold updateStorm
  dsimp only
  rw [hc]
  split_ifs
  · refine ⟨rfl, rfl, rfl, rfl, ?_⟩
    simp only [damagePlayer, (updateStormPhase_config now g).2.1]
  · exact ⟨rfl, rfl, rfl, rfl, rfl⟩

end StormFrame

/-! ## The constructor's state -/

section InitialState

variable {K : Type} [LinearOrderedField K]

/-- The constructor succeeds for every random stream; its state satisfies the storm
invariant, waits at zone 0 with the storm square of size 1024 centred on the canvas, and
has the player at the canvas centre with full health. -/
theorem newGame_spec (rand : Nat → K) (t0 : K) :
    ∃ g0 : Game K, newGame rand t0 = some g0 ∧ StormInv g0.stormZones g0.storm ∧
      g0.storm.state = Phase.waiting ∧ g0.storm.currentZoneIndex = 0 ∧
      g0.storm.stateStartTime = t0 ∧ g0.storm.lastDamageTime = 0 ∧ g0.storm.damage = 1 ∧
      g0.storm.currentSize = 1024 ∧ g0.storm.centerX = 512 ∧ g0.storm.centerY = 384 ∧
      g0.player = { x := 512, y := 384, size := 50, speed := 3, maxHealth := 22,
                    currentHealth := 22 } ∧
      g0.width = 1024 ∧ g0.height = 768 ∧
      g0.keys = { w := false, a := false, s := false, d := false } := by
  obtain ⟨zs, z0, z1, hgen, hsched, h0, h1, hsize, hcx, hcy⟩ :=
    generateStormZones_schedule rand
  have hnew : newGame rand t0 = some
      { width := 1024
        height := 768
        player :=
          { x := 1024 / 2, y := 768 / 2, size := 50, speed := 3, maxHealth := 22,
            currentHealth := 22 }
        stormZones := zs
        storm :=
          { currentSize := z0.size, targetSize := z1.size, shrinkDuration := 3000,
            waitDuration := 2000, damage := 1, lastDamageTime := 0, state := Phase.waiting,
            stateStartTime := t0, shrinkStartSize := none, currentZoneIndex := 0,
            centerX := z0.centerX, centerY := z0.centerY, targetCenterX := z1.centerX,
            targetCenterY := z1.centerY, closed := false }
        keys := { w := false, a := false, s := false, d := false } } := by
    simp only [newGame, hgen, h0, h1]
  refine ⟨_, hnew, ?_, rfl, rfl, rfl, rfl, rfl, hsize, hcx, hcy, ?_, rfl, rfl, rfl⟩
  · refine ⟨hsched, rfl, rfl, Nat.zero_le _, ?_, ?_, ?_, ?_, ?_, rfl⟩
    · intro h
      exact Phase.noConfusion h
    · intro z hz
      have : z = z1 := by
        have h1' : zs[0 + 1]? = some z1 := h1
        rw [h1'] at hz
        exact (Option.some.inj hz).symm
      rw [this]
    · intro _ _ z hz
      have : z = z0 := by
        rw [h0] at hz
        exact (Option.some.inj hz).symm
      rw [this]
    · intro h
      exact Phase.noConfusion h
    · show 0 < z0.size
      rw [hsize]
      norm_num
  · norm_num

end InitialState

/-! ## The damage rule -/

section DamageRule

variable {K : Type} [LinearOrderedField K] [FloorRing K]

/-- The test of the damage block, spelled out on the storm after `updateStorm`. -/
theorem stormDamageApplies_iff (now : K) (g : Game K) :
    stormDamageApplies now g = true ↔
      (strictlyOutsideSquare g.player.x g.player.y (updateStorm now g).storm.centerX
          (updateStorm now g).storm.centerY (updateStorm now g).storm.currentSize ∧
        1000 ≤ now - g.storm.lastDamageTime) := by
  obtain ⟨c, hc⟩ := updateStormTimer_eq now g (updateStormPhase now g)
  obtain ⟨c', hc'⟩ := updateStorm_storm now g
  have hl := (updateStormPhase_config now g).1
  rw [hc']
  simp only [stormDamageApplies, outsideStorm, strictlyOutsideSquare, hc, hl, Bool.and_eq_true, decide_eq_true_eq,
    ge_iff_le, sub_add_cancel_left]
  have e : ∀ a b : K, a - b / 2 + b = a + b / 2 := fun a b => by ring
  rw [e, e]

/-- C7: for every state (with `storm.damage = 1`, as the constructor sets it) and clock
value, `updateStorm` changes `player.currentHealth` only when the player's position lies
strictly outside the storm square (taken after this frame's storm update) and
`now - lastDamageTime ≥ 1000`; then health drops by 1 floored at 0 and `lastDamageTime`
becomes `now`; otherwise both are unchanged.  In particular the constructor's state (player
at the canvas centre, storm at zone 0) takes no damage at any clock value. -/
theorem updateStorm_damage_rule (now : K) (g : Game K) (hd : g.storm.damage = 1)
    (rand : Nat → K) (t0 : K) :
    ((strictlyOutsideSquare g.player.x g.player.y (updateStorm now g).storm.centerX
          (updateStorm now g).storm.centerY (updateStorm now g).storm.currentSize ∧
        1000 ≤ now - g.storm.lastDamageTime) →
      (updateStorm now g).player.currentHealth = max 0 (g.player.currentHealth - 1) ∧
        (updateStorm now g).storm.lastDamageTime = now) ∧
    (¬ (strictlyOutsideSquare g.player.x g.player.y (updateStorm now g).storm.centerX
          (updateStorm now g).storm.centerY (updateStorm now g).storm.currentSize ∧
        1000 ≤ now - g.storm.lastDamageTime) →
      (updateStorm now g).player.currentHealth = g.player.currentHealth ∧
        (updateStorm now g).storm.lastDamageTime = g.storm.lastDamageTime) ∧
    (∃ g0 : Game K, newGame rand t0 = some g0 ∧
      g0.player.x = g0.width / 2 ∧ g0.player.y = g0.height / 2 ∧
      g0.storm.currentSize = max g0.width g0.height ∧
      (updateStorm now g0).player.currentHealth = g0.player.currentHealth ∧
      (updateStorm now g0).storm.lastDamageTime = g0.storm.lastDamageTime) := by
  have rule : ∀ g : Game K,
      (stormDamageApplies now g = true →
        (updateStorm now g).player.currentHealth =
            max 0 (g.player.currentHealth - g.storm.damage) ∧
          (updateStorm now g).storm.lastDamageTime = now) ∧
      (¬ stormDamageApplies now g = true →
        (updateStorm now g).player.currentHealth = g.player.currentHealth ∧
          (updateStorm now g).storm.lastDamageTime = g.storm.lastDamageTime) := by
    intro g
    obtain ⟨c, hc⟩ := updateStorm_storm now g
    have hp := (updateStorm_rest now g).2.2.2.2
    constructor
    · intro h
      rw [hc, hp]
      simp [h]
    · intro h
      rw [hc, hp]
      simp [h]
  refine ⟨fun h => ?_, fun h => ?_, ?_⟩
  · have := (rule g).1 ((stormDamageApplies_iff now g).2 h)
    rwa [hd] at this
  · exact (rule g).2 (fun h' => h ((stormDamageApplies_iff now g).1 h'))
  · obtain ⟨g0, hnew, _, hw, _, _, _, _, hsize, hcx, hcy, hpl, hwd, hht, _⟩ :=
      newGame_spec rand t0
    refine ⟨g0, hnew, by rw [hpl, hwd]; norm_num, by rw [hpl, hht]; norm_num,
      by rw [hsize, hwd, hht]; norm_num, ?_⟩
    refine (rule g0).2 (fun h' => ?_)
    obtain ⟨hout, _⟩ := (stormDamageApplies_iff now g0).1 h'
    obtain ⟨c, hc⟩ := updateStorm_storm now g0
    obtain ⟨e1, e2, e3, _⟩ := updateStormPhase_waiting now g0 hw
    rw [hc] at hout
    simp only [strictlyOutsideSquare, e1, e2, e3, hsize, hcx, hcy, hpl] at hout
    norm_num at hout

end DamageRule

section DamageWitness

/-- Witness of `updateStorm_damage_rule`: in `cornerGame` at clock value 51000 the player
is outside the storm square and loses one health point. -/
theorem updateStorm_damage_rule_witness :
    cornerGame.storm.damage = 1 ∧
    (strictlyOutsideSquare cornerGame.player.x cornerGame.player.y
        (updateStorm 51000 cornerGame).storm.centerX
        (updateStorm 51000 cornerGame).storm.centerY
        (updateStorm 51000 cornerGame).storm.currentSize ∧
      (1000 : ℚ) ≤ 51000 - cornerGame.storm.lastDamageTime) ∧
    (updateStorm 51000 cornerGame).player.currentHealth = 21 ∧
    (updateStorm 51000 cornerGame).storm.lastDamageTime = 51000 := by
  have hout : strictlyOutsideSquare cornerGame.player.x cornerGame.player.y
        (updateStorm 51000 cornerGame).storm.centerX
        (updateStorm 51000 cornerGame).storm.centerY
        (updateStorm 51000 cornerGame).storm.currentSize ∧
      (1000 : ℚ) ≤ 51000 - cornerGame.storm.lastDamageTime := by
    obtain ⟨c, hc⟩ := updateStorm_storm 51000 cornerGame
    obtain ⟨e1, e2, e3, _⟩ := updateStormPhase_waiting 51000 cornerGame rfl
    rw [hc]
    simp only [strictlyOutsideSquare, e1, e2, e3]
    norm_num [cornerGame, centredGame]
  have h := (updateStorm_damage_rule 51000 cornerGame rfl (fun _ => 1 / 2) 0).1 hout
  refine ⟨rfl, hout, ?_, h.2⟩
  rw [h.1]
  norm_num [cornerGame]

end DamageWitness

/-! ## Frames: what the steps around `updateStorm` touch -/

section KeyEvents

variable {K : Type} [LinearOrderedField K]

/-- A key event changes, of the storm, at most `stateStartTime` (the `b` time-skip), and
leaves the schedule alone. -/
theorem handleKeyEvent_storm (g : Game K) (e : KeyEvent) :
    (∃ t : K, (handleKeyEvent g e).storm = { g.storm with stateStartTime := t }) ∧
      (handleKeyEvent g e).stormZones = g.stormZones := by
  cases e with
  | keydown key =>
    cases key <;> exact ⟨⟨_, rfl⟩, rfl⟩
  | keyup key => exact ⟨⟨g.storm.stateStartTime, rfl⟩, rfl⟩

/-- A batch of key events changes, of the storm, at most `stateStartTime`. -/
theorem handleKeyEvents_storm (events : List KeyEvent) (g : Game K) :
    (∃ t : K, (events.foldl handleKeyEvent g).storm = { g.storm with stateStartTime := t }) ∧
      (events.foldl handleKeyEvent g).stormZones = g.stormZones := by
  induction events generalizing g with
  | nil => exact ⟨⟨g.storm.stateStartTime, rfl⟩, rfl⟩
  | cons e es ih =>
    obtain ⟨⟨t1, h1⟩, z1⟩ := handleKeyEvent_storm g e
    obtain ⟨⟨t2, h2⟩, z2⟩ := ih (handleKeyEvent g e)
    refine ⟨⟨t2, ?_⟩, ?_⟩
    · rw [List.foldl_cons, h2, h1]
    · rw [List.foldl_cons, z2, z1]

/-- The method `drawStorm` changes at most `closed`. -/
theorem drawStorm_eq (g : Game K) :
    ∃ c : Bool, drawStorm g = { g with storm := { g.storm with closed := c } } := by
  unfold drawStorm
  dsimp only
  split_ifs
  · exact ⟨true, rfl⟩
  · exact ⟨g.storm.closed, rfl⟩

/-- At the start of `updateStorm` in a frame, the storm is the one the last frame left,
up to `stateStartTime`. -/
theorem beforeStorm_storm (sqrt : K → K) (g : Game K) (f : Frame K) :
    (∃ t : K, (beforeStorm sqrt g f).storm = { g.storm with stateStartTime := t }) ∧
      (beforeStorm sqrt g f).stormZones = g.stormZones :=
  handleKeyEvents_storm f.events g

end KeyEvents

section Frames

variable {K : Type} [LinearOrderedField K] [FloorRing K]

/-- A frame is `drawStorm` after `updateStorm` on the state `beforeStorm`. -/
theorem runFrame_eq (sqrt : K → K) (g : Game K) (f : Frame K) :
    runFrame sqrt g f = drawStorm (updateStorm f.now (beforeStorm sqrt g f)) := rfl

/-- The `lastDamageTime` after a frame: the frame's clock if the storm damaged the player
in it (and then at least 1000 after the previous value), the previous value otherwise. -/
theorem runFrame_lastDamageTime (sqrt : K → K) (g : Game K) (f : Frame K) :
    (stormDamageApplies f.now (beforeStorm sqrt g f) = true →
      (runFrame sqrt g f).storm.lastDamageTime = f.now ∧
        g.storm.lastDamageTime + 1000 ≤ f.now) ∧
    (¬ stormDamageApplies f.now (beforeStorm sqrt g f) = true →
      (runFrame sqrt g f).storm.lastDamageTime = g.storm.lastDamageTime) := by
  obtain ⟨⟨t, ht⟩, _⟩ := beforeStorm_storm sqrt g f
  obtain ⟨c, hc⟩ := updateStorm_storm f.now (beforeStorm sqrt g f)
  obtain ⟨c', hc'⟩ := drawStorm_eq (updateStorm f.now (beforeStorm sqrt g f))
  have hl : (beforeStorm sqrt g f).storm.lastDamageTime = g.storm.lastDamageTime := by
    rw [ht]
  rw [runFrame_eq, hc', hc]
  constructor
  · intro h
    refine ⟨by simp [h], ?_⟩
    have h2 := ((stormDamageApplies_iff f.now (beforeStorm sqrt g f)).1 h).2
    rw [hl] at h2
    linarith
  · intro h
    simp [h, hl]

/-- C2: in every run of frames, from any state, the clock values of the frames in which
`updateStorm` damages the player are pairwise at least 1000 apart (each later one is at
least 1000 after each earlier one); this needs no assumption on the clock. -/
theorem damageClocks_spaced (sqrt : K → K) (g : Game K) (frames : List (Frame K)) :
    (damageClocks sqrt g frames).Pairwise (fun earlier later => earlier + 1000 ≤ later) := by
  have key : ∀ (frames : List (Frame K)) (g : Game K),
      (damageClocks sqrt g frames).Pairwise (fun earlier later => earlier + 1000 ≤ later) ∧
        ∀ c ∈ damageClocks sqrt g frames, g.storm.lastDamageTime + 1000 ≤ c := by
    intro frames
    induction frames with
    | nil => intro g; exact ⟨List.Pairwise.nil, fun c hc => absurd hc (List.not_mem_nil c)⟩
    | cons f fs ih =>
      intro g
      obtain ⟨hp, hall⟩ := ih (runFrame sqrt g f)
      obtain ⟨hyes, hno⟩ := runFrame_lastDamageTime sqrt g f
      unfold damageClocks
      by_cases h : stormDamageApplies f.now (beforeStorm sqrt g f) = true
      · obtain ⟨hl, hge⟩ := hyes h
        rw [hl] at hall
        simp only [h, if_true, List.singleton_append]
        refine ⟨List.Pairwise.cons hall hp, ?_⟩
        intro c hc
        rcases List.mem_cons.1 hc with rfl | hc'
        · exact hge
        · have := hall c hc'
          linarith
      · rw [hno h] at hall
        simp only [h, if_false, List.nil_append]
        exact ⟨hp, hall⟩
  exact (key frames g).1

end Frames

/-! ## The storm invariant -/

section Invariant

variable {K : Type} [LinearOrderedField K]

/-- A schedule has a zone at every index up to 10. -/
theorem Schedule.exists_zone {zs : List (Zone K)} (h : Schedule zs) {i : Nat} (hi : i < 11) :
    ∃ z, zs[i]? = some z := by
  have hlt : i < zs.length := by rw [h.length_eq]; exact hi
  exact ⟨zs[i], List.getElem?_eq_getElem hlt⟩

/-- A schedule has no zone from index 11 on. -/
theorem Schedule.no_zone {zs : List (Zone K)} (h : Schedule zs) {i : Nat} (hi : 11 ≤ i) :
    zs[i]? = none := by
  apply List.getElem?_eq_none
  rw [h.length_eq]
  exact hi

/-- The eased size stays positive: between a positive start `a` and a target `b` with
`0 ≤ b ≤ a`, for every eased progress below 1. -/
theorem eased_size_pos (a b e : K) (ha : 0 < a) (hb : 0 ≤ b) (hba : b ≤ a) (he : e < 1) :
    0 < a + (b - a) * e := by
  by_cases h0 : 0 ≤ e
  · have h1 : 0 < a * (1 - e) := mul_pos ha (by linarith)
    have h2 : 0 ≤ b * e := mul_nonneg hb h0
    have e1 : a + (b - a) * e = a * (1 - e) + b * e := by ring
    rw [e1]
    linarith
  · have h1 : 0 ≤ (b - a) * e :=
      mul_nonneg_of_nonpos_of_nonpos (by linarith) (by linarith)
    linarith

/-- The eased size lies between target and start when the eased progress is in `[0, 1]`. -/
theorem eased_size_between (a b e : K) (hba : b ≤ a) (h0 : 0 ≤ e) (h1 : e ≤ 1) :
    b ≤ a + (b - a) * e ∧ a + (b - a) * e ≤ a := by
  have h2 : 0 ≤ (a - b) * e := mul_nonneg (by linarith) h0
  have h3 : (a - b) * e ≤ (a - b) * 1 := mul_le_mul_of_nonneg_left h1 (by linarith)
  constructor <;> nlinarith

/-- The cubic ease-out `1 - (1 - p)^3` maps `[0, 1)` into `[0, 1)`, and everything below 1
to something below 1. -/
theorem cubic_ease_range (p : K) (hp : p < 1) :
    1 - (1 - p) ^ 3 < 1 ∧ (0 ≤ p → 0 ≤ 1 - (1 - p) ^ 3) := by
  have hq : 0 < 1 - p := by linarith
  have h3 : 0 < (1 - p) ^ 3 := pow_pos hq 3
  refine ⟨by linarith, fun h0 => ?_⟩
  have hle : (1 - p) ^ 3 ≤ 1 := pow_le_one₀ hq.le (by linarith)
  linarith

/-- While the index is below 10 the current zone is not final, so `moveDuration` is
5000 or 3000 and the easing is cubic. -/
theorem moveDuration_of_lt (g : Game K) (h : StormInv g.stormZones g.storm)
    (hi : g.storm.currentZoneIndex < 10) :
    isFinalPhase g = false ∧ (moveDuration g = 5000 ∨ moveDuration g = 3000) := by
  obtain ⟨z, hz⟩ := h.sched.exists_zone (i := g.storm.currentZoneIndex) (by omega)
  have hnf := h.sched.not_final _ z hi hz
  have hf : isFinalPhase g = false := by
    simp only [isFinalPhase, hz, zoneHasType, decide_eq_false_iff_not]
    exact hnf
  refine ⟨hf, ?_⟩
  simp only [moveDuration, hf, h.shrinkDuration_eq]
  by_cases hm : isEndGameMove g = true
  · left; simp [hm]
  · right; simp [hm]

/-- The invariant does not mention `stateStartTime`, `lastDamageTime`. -/
theorem StormInv.with_times {zs : List (Zone K)} {s : Storm K} (h : StormInv zs s)
    (t l : K) : StormInv zs { s with stateStartTime := t, lastDamageTime := l } :=
  ⟨h.sched, h.shrinkDuration_eq, h.waitDuration_eq, h.index_le, h.shrinking_lt, h.target_eq,
    h.waiting_size, h.shrinking_start, h.size_pos, h.not_closed⟩

end Invariant

section PhaseInvariant

variable {K : Type} [LinearOrderedField K]

/-- The size latched as the start of the shrink is the size of the current zone. -/
theorem shrink_start_eq {zs : List (Zone K)} {s : Storm K} (h : StormInv zs s)
    (hst : s.state = Phase.shrinking) {z : Zone K} (hz : zs[s.currentZoneIndex]? = some z) :
    (if truthy s.shrinkStartSize then s.shrinkStartSize.getD 0 else s.currentSize) =
      z.size := by
  have hpos := h.sched.size_pos _ z (h.shrinking_lt hst) hz
  rcases h.shrinking_start hst z hz with ⟨hn, hc⟩ | hs
  · rw [hn]
    simp only [truthy, Bool.false_eq_true, if_false, hc]
  · rw [hs]
    have : z.size ≠ 0 := ne_of_gt hpos
    simp [truthy, this]

/-- The phase block of `updateStorm` keeps the storm invariant, and moves the zone index
by at most one step forward. -/
theorem updateStormPhase_inv (now : K) (g : Game K) (h : StormInv g.stormZones g.storm) :
    StormInv g.stormZones (updateStormPhase now g) ∧
      g.storm.currentZoneIndex ≤ (updateStormPhase now g).currentZoneIndex ∧
      (updateStormPhase now g).currentZoneIndex ≤ g.storm.currentZoneIndex + 1 := by
  cases hst : g.storm.state with
  | shrinking =>
    have hidx := h.shrinking_lt hst
    obtain ⟨z, hz⟩ := h.sched.exists_zone (i := g.storm.currentZoneIndex) (by omega)
    obtain ⟨z', hz'⟩ := h.sched.exists_zone (i := g.storm.currentZoneIndex + 1) (by omega)
    obtain ⟨hfin, hmd⟩ := moveDuration_of_lt g h hidx
    by_cases hdone : now - g.storm.stateStartTime ≥ moveDuration g
    · by_cases h9 : g.storm.currentZoneIndex + 1 < 10
      · obtain ⟨z'', hz''⟩ :=
          h.sched.exists_zone (i := g.storm.currentZoneIndex + 1 + 1) (by omega)
        have e : updateStormPhase now g =
            { g.storm with
              state := Phase.waiting
              stateStartTime := now
              currentZoneIndex := g.storm.currentZoneIndex + 1
              currentSize := z'.size
              targetSize := z''.size
              centerX := z'.centerX
              centerY := z'.centerY
              targetCenterX := z''.centerX
              targetCenterY := z''.centerY } := by
          simp only [updateStormPhase, hst, hdone, if_true, hz', hz'']
        rw [e]
        refine ⟨⟨h.sched, h.shrinkDuration_eq, h.waitDuration_eq, by show _ + 1 ≤ 10; omega,
          fun hc => Phase.noConfusion hc, ?_, ?_, fun hc => Phase.noConfusion hc, ?_,
          h.not_closed⟩, Nat.le_succ _, le_refl _⟩
        · intro y hy
          have hy' : g.stormZones[g.storm.currentZoneIndex + 1 + 1]? = some y := hy
          rw [hz''] at hy'
          rw [← Option.some.inj hy']
        · intro _ _ y hy
          have hy' : g.stormZones[g.storm.currentZoneIndex + 1]? = some y := hy
          rw [hz'] at hy'
          rw [← Option.some.inj hy']
        · exact h.sched.size_pos _ z' h9 hz'
      · have hz'' : g.stormZones[g.storm.currentZoneIndex + 1 + 1]? = none :=
          h.sched.no_zone (by omega)
        have e : updateStormPhase now g =
            { g.storm with
              state := Phase.waiting
              stateStartTime := now
              currentZoneIndex := g.storm.currentZoneIndex + 1 } := by
          simp only [updateStormPhase, hst, hdone, if_true, hz', hz'']
        rw [e]
        refine ⟨⟨h.sched, h.shrinkDuration_eq, h.waitDuration_eq, by show _ + 1 ≤ 10; omega,
          fun hc => Phase.noConfusion hc, ?_, ?_, fun hc => Phase.noConfusion hc,
          h.size_pos, h.not_closed⟩, Nat.le_succ _, le_refl _⟩
        · intro y hy
          have hy' : g.stormZones[g.storm.currentZoneIndex + 1 + 1]? = some y := hy
          rw [hz''] at hy'
          exact Option.noConfusion hy'
        · intro _ hlt
          have hlt' : g.storm.currentZoneIndex + 1 < 10 := hlt
          exact absurd hlt' h9
    · have hstart := shrink_start_eq h hst hz
      have htarget := h.target_eq z' hz'
      have e : updateStormPhase now g =
          { g.storm with
            shrinkStartSize := some z.size
            currentSize := z.size + (z'.size - z.size) * easeProgress g now
            centerX := z.centerX + (z'.centerX - z.centerX) * easeProgress g now
            centerY := z.centerY + (z'.centerY - z.centerY) * easeProgress g now } := by
        simp only [updateStormPhase, hst, hdone, if_false, hz, hz', hstart, htarget]
      have hlt : now - g.storm.stateStartTime < moveDuration g := not_le.1 hdone
      have hmdpos : 0 < moveDuration g := by
        rcases hmd with hm | hm <;> rw [hm] <;> norm_num
      have hp : (now - g.storm.stateStartTime) / moveDuration g < 1 :=
        (div_lt_one hmdpos).2 hlt
      have hease : easeProgress g now < 1 := by
        simp only [easeProgress, hfin, Bool.false_eq_true, if_false]
        exact (cubic_ease_range _ hp).1
      rw [e]
      refine ⟨⟨h.sched, h.shrinkDuration_eq, h.waitDuration_eq, h.index_le,
        fun _ => hidx, h.target_eq, ?_, ?_, ?_, h.not_closed⟩, le_refl _, Nat.le_succ _⟩
      · intro hc
        have hc' : g.storm.state = Phase.waiting := hc
        rw [hst] at hc'
        exact Phase.noConfusion hc'
      · intro _ y hy
        have hy' : g.stormZones[g.storm.currentZoneIndex]? = some y := hy
        rw [hz] at hy'
        right
        show some z.size = some y.size
        rw [← Option.some.inj hy']
      · exact eased_size_pos _ _ _ (h.sched.size_pos _ z hidx hz)
          (h.sched.size_nonneg _ z' hz') (h.sched.size_le _ z z' hz hz') hease
  | waiting =>
    by_cases hdone : now - g.storm.stateStartTime ≥ waitDuration g
    · by_cases hnext : g.storm.currentZoneIndex < g.stormZones.length - 1
      · have hlt : g.storm.currentZoneIndex < 10 := by
          rw [h.sched.length_eq] at hnext
          exact hnext
        have e : updateStormPhase now g =
            { g.storm with
              state := Phase.shrinking
              stateStartTime := now
              shrinkStartSize := none } := by
          simp only [updateStormPhase, hst, hdone, hnext, if_true]
        rw [e]
        refine ⟨⟨h.sched, h.shrinkDuration_eq, h.waitDuration_eq, h.index_le,
          fun _ => hlt, h.target_eq, fun hc => Phase.noConfusion hc, ?_, h.size_pos,
          h.not_closed⟩, le_refl _, Nat.le_succ _⟩
        intro _ y hy
        exact Or.inl ⟨rfl, h.waiting_size hst hlt y hy⟩
      · have e : updateStormPhase now g = g.storm := by
          simp only [updateStormPhase, hst, hdone, hnext, if_true, if_false]
        rw [e]
        exact ⟨h, le_refl _, Nat.le_succ _⟩
    · have e : updateStormPhase now g = g.storm := by
        simp only [updateStormPhase, hst, hdone, if_false]
      rw [e]
      exact ⟨h, le_refl _, Nat.le_succ _⟩

end PhaseInvariant

section DrawInvariant

variable {K : Type} [LinearOrderedField K]

/-- Under the invariant `drawStorm` changes nothing: the safe area is positive. -/
theorem drawStorm_inv (g : Game K) (h : StormInv g.stormZones g.storm) : drawStorm g = g := by
  unfold drawStorm
  dsimp only
  have hpos : 0 < max 0 g.storm.currentSize * max 0 g.storm.currentSize := by
    have : 0 < max 0 g.storm.currentSize := lt_max_of_lt_right h.size_pos
    exact mul_pos this this
  rw [if_neg]
  intro hc
  exact absurd hc.1 (not_le.2 hpos)

end DrawInvariant

section FrameInvariant

variable {K : Type} [LinearOrderedField K] [FloorRing K]

/-- Under the invariant the timer block never sets `closed`: a frame that ends in the
shrinking phase has a current zone that is not final. -/
theorem updateStormTimer_inv (now : K) (g : Game K) (h : StormInv g.stormZones g.storm) :
    updateStormTimer now g (updateStormPhase now g) = updateStormPhase now g := by
  obtain ⟨hinv, hle, _⟩ := updateStormPhase_inv now g h
  unfold updateStormTimer
  dsimp only
  split_ifs with h1 h2 h3 h4
  · rfl
  · rfl
  · rfl
  · exfalso
    have hs : (updateStormPhase now g).state = Phase.shrinking := by
      cases hc : (updateStormPhase now g).state with
      | waiting => exact absurd hc h2
      | shrinking => rfl
    have hlt : g.storm.currentZoneIndex < 10 :=
      lt_of_le_of_lt hle (hinv.shrinking_lt hs)
    rw [(moveDuration_of_lt g h hlt).1] at h4
    exact absurd h4.1 (by simp)
  · rfl

/-- The method `updateStorm` keeps the storm invariant and moves the zone index by at most
one step forward. -/
theorem updateStorm_inv (now : K) (g : Game K) (h : StormInv g.stormZones g.storm) :
    StormInv (updateStorm now g).stormZones (updateStorm now g).storm ∧
      g.storm.currentZoneIndex ≤ (updateStorm now g).storm.currentZoneIndex ∧
      (updateStorm now g).storm.currentZoneIndex ≤ g.storm.currentZoneIndex + 1 := by
  obtain ⟨hinv, hle, hle'⟩ := updateStormPhase_inv now g h
  have ht := updateStormTimer_inv now g h
  have hz := (updateStorm_rest now g).1
  have hs : ∃ l : K, (updateStorm now g).storm =
      { updateStormPhase now g with lastDamageTime := l } := by
    unfold updateStorm
    dsimp only
    rw [ht]
    split_ifs
    · exact ⟨now, rfl⟩
    · exact ⟨(updateStormPhase now g).lastDamageTime, rfl⟩
  obtain ⟨l, hl⟩ := hs
  rw [hz, hl]
  exact ⟨hinv.with_times _ l, hle, hle'⟩

/-- Every frame keeps the storm invariant and the schedule, and moves the zone index by at
most one step forward. -/
theorem runFrame_inv (sqrt : K → K) (g : Game K) (f : Frame K)
    (h : StormInv g.stormZones g.storm) :
    StormInv (runFrame sqrt g f).stormZones (runFrame sqrt g f).storm ∧
      (runFrame sqrt g f).stormZones = g.stormZones ∧
      g.storm.currentZoneIndex ≤ (runFrame sqrt g f).storm.currentZoneIndex ∧
      (runFrame sqrt g f).storm.currentZoneIndex ≤ g.storm.currentZoneIndex + 1 := by
  obtain ⟨⟨t, ht⟩, hz⟩ := beforeStorm_storm sqrt g f
  have hb : StormInv (beforeStorm sqrt g f).stormZones (beforeStorm sqrt g f).storm := by
    rw [hz, ht]
    exact h.with_times t g.storm.lastDamageTime
  obtain ⟨hinv, hle, hle'⟩ := updateStorm_inv f.now (beforeStorm sqrt g f) hb
  have hi : (beforeStorm sqrt g f).storm.currentZoneIndex = g.storm.currentZoneIndex := by
    rw [ht]
  rw [runFrame_eq, drawStorm_inv _ hinv]
  refine ⟨hinv, ?_, ?_, ?_⟩
  · rw [(updateStorm_rest f.now (beforeStorm sqrt g f)).1, hz]
  · rw [← hi]; exact hle
  · rw [← hi]; exact hle'

/-- Every run of frames keeps the storm invariant and the schedule. -/
theorem runFrames_inv (sqrt : K → K) (frames : List (Frame K)) (g : Game K)
    (h : StormInv g.stormZones g.storm) :
    StormInv (runFrames sqrt g frames).stormZones (runFrames sqrt g frames).storm ∧
      (runFrames sqrt g frames).stormZones = g.stormZones := by
  induction frames generalizing g with
  | nil => exact ⟨h, rfl⟩
  | cons f fs ih =>
    obtain ⟨hinv, hz, _, _⟩ := runFrame_inv sqrt g f h
    obtain ⟨hinv', hz'⟩ := ih (runFrame sqrt g f) hinv
    exact ⟨hinv', hz'.trans hz⟩

/-- A run extended by one frame is the frame applied to the state after the run. -/
theorem runFrames_append (sqrt : K → K) (g : Game K) (frames : List (Frame K))
    (f : Frame K) :
    runFrames sqrt g (frames ++ [f]) = runFrame sqrt (runFrames sqrt g frames) f := by
  simp only [runFrames, List.foldl_append, List.foldl_cons, List.foldl_nil]

end FrameInvariant

/-! ## Runs from the constructor's state -/

section Runs

variable {K : Type} [LinearOrderedField K] [FloorRing K]

/-- The storm after a frame, under the invariant: the phase block applied to the state at
the start of `updateStorm`, up to `lastDamageTime`. -/
theorem runFrame_storm (sqrt : K → K) (g : Game K) (f : Frame K)
    (h : StormInv g.stormZones g.storm) :
    StormInv (beforeStorm sqrt g f).stormZones (beforeStorm sqrt g f).storm ∧
    ∃ l : K, (runFrame sqrt g f).storm =
      { updateStormPhase f.now (beforeStorm sqrt g f) with lastDamageTime := l } := by
  obtain ⟨⟨t, ht⟩, hz⟩ := beforeStorm_storm sqrt g f
  have hb : StormInv (beforeStorm sqrt g f).stormZones (beforeStorm sqrt g f).storm := by
    rw [hz, ht]
    exact h.with_times t g.storm.lastDamageTime
  obtain ⟨hinv, _, _⟩ := updateStorm_inv f.now (beforeStorm sqrt g f) hb
  have ht' := updateStormTimer_inv f.now (beforeStorm sqrt g f) hb
  refine ⟨hb, ?_⟩
  rw [runFrame_eq, drawStorm_inv _ hinv]
  unfold updateStorm
  dsimp only
  rw [ht']
  split_ifs
  · exact ⟨f.now, rfl⟩
  · exact ⟨(updateStormPhase f.now (beforeStorm sqrt g f)).lastDamageTime, rfl⟩

/-- C3: in every run of frames from the constructor's state (key events, among them any
number of `b` time-skips, then `updatePlayer`, `updateStorm`, `drawStorm`; any clock
values), `currentZoneIndex` does not decrease from one frame to the next, grows by at most
1 per frame, and never exceeds `stormZones.length - 1`, so that the current zone is always
defined. -/
theorem currentZoneIndex_steps (sqrt : K → K) (rand : Nat → K) (t0 : K)
    (frames : List (Frame K)) (f : Frame K) :
    ∃ g0 : Game K, newGame rand t0 = some g0 ∧
      g0.storm.currentZoneIndex = 0 ∧
      (runFrames sqrt g0 frames).storm.currentZoneIndex ≤
        (runFrames sqrt g0 (frames ++ [f])).storm.currentZoneIndex ∧
      (runFrames sqrt g0 (frames ++ [f])).storm.currentZoneIndex ≤
        (runFrames sqrt g0 frames).storm.currentZoneIndex + 1 ∧
      (runFrames sqrt g0 frames).storm.currentZoneIndex ≤
        (runFrames sqrt g0 frames).stormZones.length - 1 ∧
      (∃ zone, (runFrames sqrt g0 frames).stormZones[
        (runFrames sqrt g0 frames).storm.currentZoneIndex]? = some zone) := by
  obtain ⟨g0, hnew, hinv0, _, hidx, _⟩ := newGame_spec rand t0
  obtain ⟨hinv, _⟩ := runFrames_inv sqrt frames g0 hinv0
  obtain ⟨_, _, hle, hle'⟩ := runFrame_inv sqrt (runFrames sqrt g0 frames) f hinv
  refine ⟨g0, hnew, hidx, ?_, ?_, ?_, ?_⟩
  · rw [runFrames_append]; exact hle
  · rw [runFrames_append]; exact hle'
  · rw [hinv.sched.length_eq]; exact hinv.index_le
  · exact hinv.sched.exists_zone (Nat.lt_succ_of_le hinv.index_le)

/-- In a game started by the constructor `closed` is false after every run of frames: the
storm size stays positive and the shrinking branch of a final zone is never entered. -/
theorem closed_never_set (sqrt : K → K) (rand : Nat → K) (t0 : K) (g0 : Game K)
    (hnew : newGame rand t0 = some g0) (frames : List (Frame K)) :
    (runFrames sqrt g0 frames).storm.closed = false ∧
      0 < (runFrames sqrt g0 frames).storm.currentSize := by
  obtain ⟨g0', hnew', hinv0, _⟩ := newGame_spec rand t0
  rw [hnew] at hnew'
  obtain rfl := Option.some.inj hnew'
  obtain ⟨hinv, _⟩ := runFrames_inv sqrt frames g0 hinv0
  exact ⟨hinv.not_closed, hinv.size_pos⟩

end Runs

section Eased

variable {K : Type} [LinearOrderedField K]

/-- A shrinking frame that does not finish: the phase block latches the current zone's size
as start size and interpolates size and centre with the cubic ease-out. -/
theorem updateStormPhase_continue (now : K) (g : Game K) (h : StormInv g.stormZones g.storm)
    (hst : g.storm.state = Phase.shrinking)
    (hlt : now - g.storm.stateStartTime < moveDuration g) :
    ∃ z z' : Zone K, g.stormZones[g.storm.currentZoneIndex]? = some z ∧
      g.stormZones[g.storm.currentZoneIndex + 1]? = some z' ∧
      g.storm.targetSize = z'.size ∧ z'.size ≤ z.size ∧
      easeProgress g now = 1 - (1 - (now - g.storm.stateStartTime) / moveDuration g) ^ 3 ∧
      0 < moveDuration g ∧
      updateStormPhase now g =
        { g.storm with
          shrinkStartSize := some z.size
          currentSize := z.size + (z'.size - z.size) * easeProgress g now
          centerX := z.centerX + (z'.centerX - z.centerX) * easeProgress g now
          centerY := z.centerY + (z'.centerY - z.centerY) * easeProgress g now } := by
  have hidx := h.shrinking_lt hst
  obtain ⟨z, hz⟩ := h.sched.exists_zone (i := g.storm.currentZoneIndex) (by omega)
  obtain ⟨z', hz'⟩ := h.sched.exists_zone (i := g.storm.currentZoneIndex + 1) (by omega)
  obtain ⟨hfin, hmd⟩ := moveDuration_of_lt g h hidx
  have hstart := shrink_start_eq h hst hz
  have htarget := h.target_eq z' hz'
  have hdone : ¬ (now - g.storm.stateStartTime ≥ moveDuration g) := not_le.2 hlt
  refine ⟨z, z', hz, hz', htarget, h.sched.size_le _ z z' hz hz', ?_, ?_, ?_⟩
  · simp only [easeProgress, hfin, Bool.false_eq_true, if_false]
  · rcases hmd with hm | hm <;> rw [hm] <;> norm_num
  · simp only [updateStormPhase, hst, hdone, if_false, hz, hz', hstart, htarget]

/-- While the index is below 10 no phase lasts longer than 5000. -/
theorem durations_le (g : Game K) (h : StormInv g.stormZones g.storm)
    (hi : g.storm.currentZoneIndex < 10) :
    waitDuration g ≤ 5000 ∧ moveDuration g ≤ 5000 := by
  obtain ⟨hf, hmd⟩ := moveDuration_of_lt g h hi
  constructor
  · simp only [waitDuration, hf, h.waitDuration_eq, Bool.false_eq_true, if_false]
    split_ifs
    all_goals norm_num
  · rcases hmd with hm | hm
    · exact le_of_eq hm
    · rw [hm]
      norm_num

end Eased

section EasedRuns

variable {K : Type} [LinearOrderedField K] [FloorRing K]

/-- C8: in a game started by the constructor (so over a schedule returned by
`generateStormZones`), `storm.currentSize ≥ 0` after every run of frames; and in a frame
whose `updateStorm` starts in the shrinking phase with progress
`p = (now - stateStartTime) / moveDuration` in `[0, 1)`, the storm stays shrinking and
`currentSize = shrinkStartSize + (targetSize - shrinkStartSize) * (1 - (1 - p)^3)`, which
lies between `targetSize` and `shrinkStartSize` (the current zone is never final while
shrinking, so the easing is always the cubic one). -/
theorem currentSize_eased (sqrt : K → K) (rand : Nat → K) (t0 : K) (g0 : Game K)
    (hnew : newGame rand t0 = some g0) :
    (∀ frames : List (Frame K), 0 ≤ (runFrames sqrt g0 frames).storm.currentSize) ∧
    (∀ (frames : List (Frame K)) (f : Frame K),
      (beforeStorm sqrt (runFrames sqrt g0 frames) f).storm.state = Phase.shrinking →
      0 ≤ (f.now - (beforeStorm sqrt (runFrames sqrt g0 frames) f).storm.stateStartTime) /
          moveDuration (beforeStorm sqrt (runFrames sqrt g0 frames) f) →
      (f.now - (beforeStorm sqrt (runFrames sqrt g0 frames) f).storm.stateStartTime) /
          moveDuration (beforeStorm sqrt (runFrames sqrt g0 frames) f) < 1 →
      ∃ startSize : K,
        (runFrames sqrt g0 (frames ++ [f])).storm.shrinkStartSize = some startSize ∧
        (runFrames sqrt g0 (frames ++ [f])).storm.state = Phase.shrinking ∧
        (runFrames sqrt g0 (frames ++ [f])).storm.currentSize =
          startSize + ((runFrames sqrt g0 (frames ++ [f])).storm.targetSize - startSize) *
            (1 - (1 - (f.now -
              (beforeStorm sqrt (runFrames sqrt g0 frames) f).storm.stateStartTime) /
                moveDuration (beforeStorm sqrt (runFrames sqrt g0 frames) f)) ^ 3) ∧
        (runFrames sqrt g0 (frames ++ [f])).storm.targetSize ≤
          (runFrames sqrt g0 (frames ++ [f])).storm.currentSize ∧
        (runFrames sqrt g0 (frames ++ [f])).storm.currentSize ≤ startSize) := by
  obtain ⟨g0', hnew', hinv0, _⟩ := newGame_spec rand t0
  rw [hnew] at hnew'
  obtain rfl := Option.some.inj hnew'
  refine ⟨fun frames => (closed_never_set sqrt rand t0 g0 hnew frames).2.le, ?_⟩
  intro frames f hst hp0 hp1
  obtain ⟨hinv, _⟩ := runFrames_inv sqrt frames g0 hinv0
  obtain ⟨hb, l, hl⟩ := runFrame_storm sqrt (runFrames sqrt g0 frames) f hinv
  have hidx := hb.shrinking_lt hst
  have hmdpos : 0 < moveDuration (beforeStorm sqrt (runFrames sqrt g0 frames) f) := by
    rcases (moveDuration_of_lt _ hb hidx).2 with hm | hm <;> rw [hm] <;> norm_num
  have hlt := (div_lt_one hmdpos).1 hp1
  obtain ⟨z, z', _, _, htarget, hle, hease, _, he⟩ :=
    updateStormPhase_continue f.now _ hb hst hlt
  obtain ⟨he1, he0⟩ := cubic_ease_range _ hp1
  rw [runFrames_append, hl, he, ← hease]
  refine ⟨z.size, rfl, hst, ?_, ?_⟩
  · show z.size + (z'.size - z.size) * _ = z.size + (_ - z.size) * _
    rw [htarget]
  · show (beforeStorm sqrt (runFrames sqrt g0 frames) f).storm.targetSize ≤
        z.size + (z'.size - z.size) * _ ∧ z.size + (z'.size - z.size) * _ ≤ z.size
    rw [htarget]
    rw [hease]
    exact eased_size_between _ _ _ hle (he0 hp0) he1.le

end EasedRuns

section Transitions

variable {K : Type} [LinearOrderedField K] [FloorRing K]

/-- A frame without key events in which the wait of a zone below 10 is over: the storm
starts shrinking. -/
theorem runFrame_waiting_elapsed (sqrt : K → K) (g : Game K) (now : K)
    (h : StormInv g.stormZones g.storm) (hst : g.storm.state = Phase.waiting)
    (hi : g.storm.currentZoneIndex < 10)
    (hel : waitDuration g ≤ now - g.storm.stateStartTime) :
    (runFrame sqrt g { events := [], now := now }).storm.state = Phase.shrinking ∧
      (runFrame sqrt g { events := [], now := now }).storm.currentZoneIndex =
        g.storm.currentZoneIndex ∧
      (runFrame sqrt g { events := [], now := now }).storm.stateStartTime = now ∧
      (runFrame sqrt g { events := [], now := now }).storm.shrinkStartSize = none ∧
      (runFrame sqrt g { events := [], now := now }).storm.currentSize =
        g.storm.currentSize ∧
      (runFrame sqrt g { events := [], now := now }).storm.targetSize =
        g.storm.targetSize := by
  obtain ⟨_, l, hl⟩ := runFrame_storm sqrt g { events := [], now := now } h
  have hb : updateStormPhase now (beforeStorm sqrt g { events := [], now := now }) =
      updateStormPhase now g := rfl
  have hnext : g.storm.currentZoneIndex < g.stormZones.length - 1 := by
    rw [h.sched.length_eq]; exact hi
  have e : updateStormPhase now g =
      { g.storm with
        state := Phase.shrinking, stateStartTime := now, shrinkStartSize := none } := by
    simp only [updateStormPhase, hst, ge_iff_le, hel, hnext, if_true]
  rw [hl]
  show (updateStormPhase now (beforeStorm sqrt g { events := [], now := now })).state = _ ∧
    (updateStormPhase now (beforeStorm sqrt g { events := [], now := now })).currentZoneIndex
      = _ ∧
    (updateStormPhase now (beforeStorm sqrt g { events := [], now := now })).stateStartTime
      = _ ∧
    (updateStormPhase now (beforeStorm sqrt g { events := [], now := now })).shrinkStartSize
      = _ ∧
    (updateStormPhase now (beforeStorm sqrt g { events := [], now := now })).currentSize
      = _ ∧
    (updateStormPhase now (beforeStorm sqrt g { events := [], now := now })).targetSize = _
  rw [hb, e]
  exact ⟨rfl, rfl, rfl, rfl, rfl, rfl⟩

/-- A frame without key events in which the shrink is over: the storm waits at the next
zone. -/
theorem runFrame_shrinking_elapsed (sqrt : K → K) (g : Game K) (now : K)
    (h : StormInv g.stormZones g.storm) (hst : g.storm.state = Phase.shrinking)
    (hel : moveDuration g ≤ now - g.storm.stateStartTime) :
    (runFrame sqrt g { events := [], now := now }).storm.state = Phase.waiting ∧
      (runFrame sqrt g { events := [], now := now }).storm.currentZoneIndex =
        g.storm.currentZoneIndex + 1 ∧
      (runFrame sqrt g { events := [], now := now }).storm.stateStartTime = now := by
  obtain ⟨_, l, hl⟩ := runFrame_storm sqrt g { events := [], now := now } h
  have hb : updateStormPhase now (beforeStorm sqrt g { events := [], now := now }) =
      updateStormPhase now g := rfl
  have e : (updateStormPhase now g).state = Phase.waiting ∧
      (updateStormPhase now g).currentZoneIndex = g.storm.currentZoneIndex + 1 ∧
      (updateStormPhase now g).stateStartTime = now := by
    simp only [updateStormPhase, hst, ge_iff_le, hel, if_true]
    split <;> exact ⟨rfl, rfl, rfl⟩
  rw [hl]
  show (updateStormPhase now (beforeStorm sqrt g { events := [], now := now })).state = _ ∧
    (updateStormPhase now (beforeStorm sqrt g { events := [], now := now })).currentZoneIndex
      = _ ∧
    (updateStormPhase now (beforeStorm sqrt g { events := [], now := now })).stateStartTime
      = _
  rw [hb]
  exact e

end Transitions

/-! ## Concrete runs of `centredGame` -/

section ConcreteRuns

/-- The constructor's `centredGame` satisfies the storm invariant. -/
theorem centredGame_inv : StormInv (centredGame ℚ 0).stormZones (centredGame ℚ 0).storm := by
  obtain ⟨g0, hnew, hinv, _⟩ := newGame_spec (fun _ => (1 / 2 : ℚ)) 0
  rw [newGame_half] at hnew
  obtain rfl := Option.some.inj hnew
  exact hinv

/-- After the frame at clock value 2000 `centredGame` shrinks from zone 0, since 2000. -/
theorem centredGame_frame_2000 :
    StormInv (runFrames id (centredGame ℚ 0) [{ events := [], now := 2000 }]).stormZones
      (runFrames id (centredGame ℚ 0) [{ events := [], now := 2000 }]).storm ∧
    (runFrames id (centredGame ℚ 0) [{ events := [], now := 2000 }]).storm.state =
      Phase.shrinking ∧
    (runFrames id (centredGame ℚ 0) [{ events := [], now := 2000 }]).storm.stateStartTime =
      2000 ∧
    moveDuration (runFrames id (centredGame ℚ 0) [{ events := [], now := 2000 }]) = 3000 := by
  have hw : waitDuration (centredGame ℚ 0) ≤ 2000 - (centredGame ℚ 0).storm.stateStartTime := by
    simp [waitDuration, isFinalPhase, isEndGameMove, zoneHasType, centredGame,
      centredZones]
  obtain ⟨hst, hidx, hstart, _⟩ :=
    runFrame_waiting_elapsed id (centredGame ℚ 0) 2000 centredGame_inv rfl (by decide) hw
  obtain ⟨hinv, hz, _, _⟩ :=
    runFrame_inv id (centredGame ℚ 0) { events := [], now := 2000 } centredGame_inv
  refine ⟨hinv, hst, hstart, ?_⟩
  show moveDuration (runFrame id (centredGame ℚ 0) { events := [], now := 2000 }) = 3000
  simp only [moveDuration, isFinalPhase, isEndGameMove, hz, hidx, hinv.shrinkDuration_eq]
  simp [zoneHasType, centredGame, centredZones]

/-- Witness of `currentSize_eased`: `centredGame`, a frame at clock value 2000 that starts
the shrink of zone 0, then a frame at 3500, half-way (`p = 1/2`) through the 3000 of the
shrink. -/
theorem currentSize_eased_witness :
    newGame (fun _ => (1 / 2 : ℚ)) 0 = some (centredGame ℚ 0) ∧
    (beforeStorm id (runFrames id (centredGame ℚ 0) [{ events := [], now := 2000 }])
      { events := [], now := 3500 }).storm.state = Phase.shrinking ∧
    (3500 - (beforeStorm id (runFrames id (centredGame ℚ 0) [{ events := [], now := 2000 }])
        { events := [], now := 3500 }).storm.stateStartTime) /
      moveDuration (beforeStorm id
        (runFrames id (centredGame ℚ 0) [{ events := [], now := 2000 }])
        { events := [], now := 3500 }) = 1 / 2 ∧
    0 ≤ (runFrames id (centredGame ℚ 0)
      ([{ events := [], now := 2000 }] ++ [{ events := [], now := 3500 }])).storm.currentSize ∧
    ∃ startSize : ℚ,
      (runFrames id (centredGame ℚ 0)
        ([{ events := [], now := 2000 }] ++
          [{ events := [], now := 3500 }])).storm.shrinkStartSize = some startSize ∧
      (runFrames id (centredGame ℚ 0)
        ([{ events := [], now := 2000 }] ++
          [{ events := [], now := 3500 }])).storm.state = Phase.shrinking ∧
      (runFrames id (centredGame ℚ 0)
        ([{ events := [], now := 2000 }] ++
          [{ events := [], now := 3500 }])).storm.currentSize =
        startSize + ((runFrames id (centredGame ℚ 0)
          ([{ events := [], now := 2000 }] ++
            [{ events := [], now := 3500 }])).storm.targetSize - startSize) *
          (1 - (1 - 1 / 2) ^ 3) ∧
      (runFrames id (centredGame ℚ 0)
        ([{ events := [], now := 2000 }] ++
          [{ events := [], now := 3500 }])).storm.targetSize ≤
        (runFrames id (centredGame ℚ 0)
          ([{ events := [], now := 2000 }] ++
            [{ events := [], now := 3500 }])).storm.currentSize ∧
      (runFrames id (centredGame ℚ 0)
        ([{ events := [], now := 2000 }] ++
          [{ events := [], now := 3500 }])).storm.currentSize ≤ startSize := by
  obtain ⟨_, hst, hstart, hmd⟩ := centredGame_frame_2000
  have hB1 : (beforeStorm id (runFrames id (centredGame ℚ 0) [{ events := [], now := 2000 }])
      { events := [], now := 3500 }).storm.state = Phase.shrinking := hst
  have hp : (3500 - (beforeStorm id
        (runFrames id (centredGame ℚ 0) [{ events := [], now := 2000 }])
        { events := [], now := 3500 }).storm.stateStartTime) /
      moveDuration (beforeStorm id
        (runFrames id (centredGame ℚ 0) [{ events := [], now := 2000 }])
        { events := [], now := 3500 }) = 1 / 2 := by
    show (3500 - (runFrames id (centredGame ℚ 0)
        [{ events := [], now := 2000 }]).storm.stateStartTime) /
      moveDuration (runFrames id (centredGame ℚ 0) [{ events := [], now := 2000 }]) = 1 / 2
    rw [hstart, hmd]
    norm_num
  obtain ⟨hA, hB⟩ :=
    currentSize_eased id (fun _ => (1 / 2 : ℚ)) 0 (centredGame ℚ 0) (newGame_half 0)
  have h := hB [{ events := [], now := 2000 }] { events := [], now := 3500 } hB1
    (by rw [hp]; norm_num) (by rw [hp]; norm_num)
  rw [hp] at h
  exact ⟨newGame_half 0, hB1, hp, hA _, h⟩

/-- The state of `centredGame` after the first `n ≤ 20` frames of the steady run: every
frame completes a phase, so after `n` frames the storm is at zone `n / 2`, waiting when `n`
is even and shrinking when `n` is odd, since the clock value `5000 * n`. -/
theorem steadyFrames_state (n : Nat) (hn : n ≤ 20) :
    (runFrames id (centredGame ℚ 0) (steadyFrames n)).storm.stateStartTime = 5000 * n ∧
    (runFrames id (centredGame ℚ 0) (steadyFrames n)).storm.currentZoneIndex = n / 2 ∧
    (n % 2 = 0 →
      (runFrames id (centredGame ℚ 0) (steadyFrames n)).storm.state = Phase.waiting) ∧
    (n % 2 = 1 →
      (runFrames id (centredGame ℚ 0) (steadyFrames n)).storm.state = Phase.shrinking) := by
  induction n with
  | zero =>
    refine ⟨?_, rfl, fun _ => rfl, fun h => absurd h (by decide)⟩
    show (0 : ℚ) = 5000 * ((0 : ℕ) : ℚ)
    norm_num
  | succ n ih =>
    obtain ⟨hstart, hidx, heven, hodd⟩ := ih (by omega)
    obtain ⟨hinv, _⟩ := runFrames_inv id (steadyFrames n) (centredGame ℚ 0) centredGame_inv
    have hsteady : steadyFrames (n + 1) =
        steadyFrames n ++ [{ events := [], now := 5000 * ((n : ℚ) + 1) }] := by
      simp [steadyFrames, List.range_succ]
    rw [hsteady, runFrames_append]
    have hel : (5000 : ℚ) ≤
        5000 * ((n : ℚ) + 1) -
          (runFrames id (centredGame ℚ 0) (steadyFrames n)).storm.stateStartTime := by
      rw [hstart]
      linarith
    have hcast : (5000 : ℚ) * ((n : ℚ) + 1) = 5000 * ((n + 1 : ℕ) : ℚ) := by
      push_cast
      ring
    rcases Nat.mod_two_eq_zero_or_one n with h0 | h1
    · have hlt : (runFrames id (centredGame ℚ 0) (steadyFrames n)).storm.currentZoneIndex
          < 10 := by
        rw [hidx]
        omega
      obtain ⟨hw, _⟩ := durations_le _ hinv hlt
      obtain ⟨e1, e2, e3, _⟩ := runFrame_waiting_elapsed id _ (5000 * ((n : ℚ) + 1)) hinv
        (heven h0) hlt (hw.trans hel)
      refine ⟨by rw [e3, hcast], by rw [e2, hidx]; omega, fun h => by omega, fun _ => e1⟩
    · have hlt := hinv.shrinking_lt (hodd h1)
      obtain ⟨_, hm⟩ := durations_le _ hinv hlt
      obtain ⟨e1, e2, e3⟩ := runFrame_shrinking_elapsed id _ (5000 * ((n : ℚ) + 1)) hinv
        (hodd h1) (hm.trans hel)
      refine ⟨by rw [e3, hcast], by rw [e2, hidx]; omega, fun _ => e1, fun h => by omega⟩

/-- C1 fails on the code.  Start the game with every random draw 0.5 at clock value 0 and
run frames without key events at the clock values 5000, 10000, ..., 100000: the zone index
is 9 after 19 frames and reaches the final zone 10 (the last index of the schedule) with
the 20th frame, at clock value 100000.  After the frame at 110000, when 10000 have elapsed
in the final zone, the storm size is still positive and `closed` is still false, and it is
false after the next frame at 115000 as well. -/
theorem final_zone_not_closed :
    newGame (fun _ => (1 / 2 : ℚ)) 0 = some (centredGame ℚ 0) ∧
    (centredGame ℚ 0).stormZones.length - 1 = 10 ∧
    (runFrames id (centredGame ℚ 0) (steadyFrames 19)).storm.currentZoneIndex = 9 ∧
    (runFrames id (centredGame ℚ 0) (steadyFrames 20)).storm.currentZoneIndex = 10 ∧
    (runFrames id (centredGame ℚ 0) (steadyFrames 20)).storm.stateStartTime = 100000 ∧
    (runFrames id (centredGame ℚ 0)
      (steadyFrames 20 ++ [{ events := [], now := 110000 }])).storm.currentZoneIndex = 10 ∧
    0 < (runFrames id (centredGame ℚ 0)
      (steadyFrames 20 ++ [{ events := [], now := 110000 }])).storm.currentSize ∧
    (runFrames id (centredGame ℚ 0)
      (steadyFrames 20 ++ [{ events := [], now := 110000 }])).storm.closed = false ∧
    (runFrames id (centredGame ℚ 0)
      (steadyFrames 20 ++ [{ events := [], now := 110000 }] ++
        [{ events := [], now := 115000 }])).storm.closed = false := by
  obtain ⟨_, h19, _, _⟩ := steadyFrames_state 19 (by decide)
  obtain ⟨hs20, h20, _, _⟩ := steadyFrames_state 20 (by decide)
  obtain ⟨hinv, _⟩ := runFrames_inv id (steadyFrames 20) (centredGame ℚ 0) centredGame_inv
  obtain ⟨hinv', _, hle, _⟩ := runFrame_inv id
    (runFrames id (centredGame ℚ 0) (steadyFrames 20)) { events := [], now := 110000 } hinv
  have hc := fun frames =>
    closed_never_set id (fun _ => (1 / 2 : ℚ)) 0 (centredGame ℚ 0) (newGame_half 0) frames
  refine ⟨newGame_half 0, rfl, h19, h20, ?_, ?_, (hc _).2, (hc _).1, (hc _).1⟩
  · rw [hs20]
    norm_num
  · rw [runFrames_append]
    rw [h20] at hle
    exact le_antisymm hinv'.index_le hle

end ConcreteRuns

/-! ## The final-zone shrinking branch is dead -/

section FinalBranch

variable {K : Type} [LinearOrderedField K] [FloorRing K]

/-- C11: in a game started by the constructor, after every run of frames (any clock values,
any key events, `b` time-skips among them) and at the start of every `updateStorm` call,
`storm.state = 'shrinking'` implies `currentZoneIndex < stormZones.length - 1`: a next zone
exists and the current zone is not of type `'final'`.  Consequently `updateStorm` never
runs the final-zone shrinking branch: when it starts in the shrinking phase `isFinalPhase`
is false, `moveDuration` is 5000 or 3000 (never 10000) and the easing is the cubic one
(never the linear one); and when it ends in the shrinking phase `isFinalPhase` is false
too, so the timer block changes nothing and `closed` stays false. -/
theorem shrinking_never_final (sqrt : K → K) (rand : Nat → K) (t0 : K) (g0 : Game K)
    (hnew : newGame rand t0 = some g0) :
    (∀ frames : List (Frame K),
      (runFrames sqrt g0 frames).storm.state = Phase.shrinking →
        (runFrames sqrt g0 frames).storm.currentZoneIndex <
          (runFrames sqrt g0 frames).stormZones.length - 1 ∧
        (∃ nextZone, (runFrames sqrt g0 frames).stormZones[
          (runFrames sqrt g0 frames).storm.currentZoneIndex + 1]? = some nextZone) ∧
        (∃ currentZone, (runFrames sqrt g0 frames).stormZones[
          (runFrames sqrt g0 frames).storm.currentZoneIndex]? = some currentZone ∧
          currentZone.type ≠ ZoneType.final)) ∧
    (∀ (frames : List (Frame K)) (f : Frame K),
      ((beforeStorm sqrt (runFrames sqrt g0 frames) f).storm.state = Phase.shrinking →
        (beforeStorm sqrt (runFrames sqrt g0 frames) f).storm.currentZoneIndex <
          (beforeStorm sqrt (runFrames sqrt g0 frames) f).stormZones.length - 1 ∧
        isFinalPhase (beforeStorm sqrt (runFrames sqrt g0 frames) f) = false ∧
        (moveDuration (beforeStorm sqrt (runFrames sqrt g0 frames) f) = 5000 ∨
          moveDuration (beforeStorm sqrt (runFrames sqrt g0 frames) f) = 3000) ∧
        moveDuration (beforeStorm sqrt (runFrames sqrt g0 frames) f) ≠ 10000 ∧
        easeProgress (beforeStorm sqrt (runFrames sqrt g0 frames) f) f.now =
          1 - (1 - (f.now -
            (beforeStorm sqrt (runFrames sqrt g0 frames) f).storm.stateStartTime) /
              moveDuration (beforeStorm sqrt (runFrames sqrt g0 frames) f)) ^ 3) ∧
      ((updateStormPhase f.now (beforeStorm sqrt (runFrames sqrt g0 frames) f)).state =
          Phase.shrinking →
        isFinalPhase (beforeStorm sqrt (runFrames sqrt g0 frames) f) = false) ∧
      updateStormTimer f.now (beforeStorm sqrt (runFrames sqrt g0 frames) f)
          (updateStormPhase f.now (beforeStorm sqrt (runFrames sqrt g0 frames) f)) =
        updateStormPhase f.now (beforeStorm sqrt (runFrames sqrt g0 frames) f) ∧
      (updateStorm f.now (beforeStorm sqrt (runFrames sqrt g0 frames) f)).storm.closed =
        false) := by
  obtain ⟨g0', hnew', hinv0, _⟩ := newGame_spec rand t0
  rw [hnew] at hnew'
  obtain rfl := Option.some.inj hnew'
  constructor
  · intro frames hst
    obtain ⟨hinv, _⟩ := runFrames_inv sqrt frames g0 hinv0
    have hlt := hinv.shrinking_lt hst
    obtain ⟨z, hz⟩ := hinv.sched.exists_zone
      (i := (runFrames sqrt g0 frames).storm.currentZoneIndex) (by omega)
    refine ⟨by rw [hinv.sched.length_eq]; exact hlt,
      hinv.sched.exists_zone (by omega), z, hz, hinv.sched.not_final _ z hlt hz⟩
  · intro frames f
    obtain ⟨hinv, _⟩ := runFrames_inv sqrt frames g0 hinv0
    obtain ⟨hb, _⟩ := runFrame_storm sqrt (runFrames sqrt g0 frames) f hinv
    obtain ⟨hpinv, hle, _⟩ := updateStormPhase_inv f.now _ hb
    refine ⟨fun hst => ?_, fun hst => ?_, updateStormTimer_inv f.now _ hb,
      (updateStorm_inv f.now _ hb).1.not_closed⟩
    · have hlt := hb.shrinking_lt hst
      obtain ⟨hfin, hmd⟩ := moveDuration_of_lt _ hb hlt
      refine ⟨by rw [hb.sched.length_eq]; exact hlt, hfin, hmd, ?_, ?_⟩
      · rcases hmd with hm | hm <;> rw [hm] <;> norm_num
      · simp only [easeProgress, hfin, Bool.false_eq_true, if_false]
    · exact (moveDuration_of_lt _ hb (lt_of_le_of_lt hle (hpinv.shrinking_lt hst))).1

end FinalBranch

section FinalBranchWitness

/-- Witness of `shrinking_never_final`: `centredGame` after the frame at clock value 2000
is shrinking, at zone 0 of 11, with `moveDuration = 3000`. -/
theorem shrinking_never_final_witness :
    newGame (fun _ => (1 / 2 : ℚ)) 0 = some (centredGame ℚ 0) ∧
    (runFrames id (centredGame ℚ 0) [{ events := [], now := 2000 }]).storm.state =
      Phase.shrinking ∧
    (runFrames id (centredGame ℚ 0) [{ events := [], now := 2000 }]).storm.currentZoneIndex <
      (runFrames id (centredGame ℚ 0) [{ events := [], now := 2000 }]).stormZones.length - 1 ∧
    isFinalPhase (beforeStorm id
      (runFrames id (centredGame ℚ 0) [{ events := [], now := 2000 }])
      { events := [], now := 3500 }) = false ∧
    moveDuration (beforeStorm id
      (runFrames id (centredGame ℚ 0) [{ events := [], now := 2000 }])
      { events := [], now := 3500 }) ≠ 10000 ∧
    (updateStorm 3500 (beforeStorm id
      (runFrames id (centredGame ℚ 0) [{ events := [], now := 2000 }])
      { events := [], now := 3500 })).storm.closed = false := by
  obtain ⟨_, hst, _, _⟩ := centredGame_frame_2000
  obtain ⟨hA, hB⟩ :=
    shrinking_never_final id (fun _ => (1 / 2 : ℚ)) 0 (centredGame ℚ 0) (newGame_half 0)
  obtain ⟨h1, _, _, hc⟩ := hB [{ events := [], now := 2000 }] { events := [], now := 3500 }
  obtain ⟨_, hfin, _, hne, _⟩ := h1 hst
  exact ⟨newGame_half 0, hst, (hA _ hst).1, hfin, hne, hc⟩

end FinalBranchWitness

end BRStorm
